import Mathlib

/-!
Verification of the pedigree merge-and-score engine.

This file is a shallow embedding of the core modules of the repository:

* `src/pedigree_graph.py`      — identity canonicalization and graph merging
* `src/pedigree_scoring.py`    — ancestor influence scoring
* `src/pedigree_summary.py`    — generation summaries
* `src/pedigree_projection.py` — depth-bounded ancestry projection
* `src/pedigree_parser.py`     — registration-number text normalization

Modelling conventions:

* Python values reaching the merge fields are modelled by `Val`
  (`int | str | None`); fully dynamic JSON-shaped values (needed for the
  failure-semantics analysis of malformed records) are modelled by `JVal`.
* Python `dict`s are association lists; insertion order is preserved,
  and updates keep the position of existing keys, as CPython does.
* Machine-independent `hashlib.md5` is implemented bit-for-bit over `Nat`
  with explicit `% 2^32` masking.
* Python `float` accumulators in the scorer are modelled by `ℚ`; every
  quantity the claims inspect (the appearance counts) is an integer that is
  exact in both representations.
* Unbounded Python recursion/loops are modelled with an explicit fuel
  parameter; the entry points pass a fuel that provably dominates the
  number of iterations the Python code can perform (each productive
  iteration consumes a fresh graph key).
-/

/-! ### Python string helpers -/

/-- Whitespace characters recognised by Python `str.strip()` (ASCII subset). -/
def pyIsSpace (c : Char) : Bool :=
  c = ' ' || c = '\t' || c = '\n' || c = '\r' || c.toNat = 11 || c.toNat = 12

/-- Python `str.strip()`. -/
def pyStrip (s : String) : String :=
  ⟨((s.data.dropWhile pyIsSpace).reverse.dropWhile pyIsSpace).reverse⟩

/-- Python `str.upper()` (ASCII letters; identifiers compared here are ASCII). -/
def pyUpperStr (s : String) : String := ⟨s.data.map Char.toUpper⟩

/-- Python `str.lower()` (ASCII letters). -/
def pyLowerStr (s : String) : String := ⟨s.data.map Char.toLower⟩

/-- Python `str.isdigit()` (ASCII digits): non-empty and all digits. -/
def pyIsDigitStr (s : String) : Bool :=
  !s.data.isEmpty && s.data.all (fun c => '0' ≤ c && c ≤ '9')

/-- Python `int(s)` on a digit string. -/
def digitsToNat (s : String) : Nat :=
  s.data.foldl (fun acc c => acc * 10 + (c.toNat - 48)) 0

/-! ### MD5 over `Nat` (faithful model of `hashlib.md5`)

`_synthetic_id` in `src/pedigree_graph.py` truncates the hex digest to its
first 16 characters (64 bits) and reduces it modulo 2 000 000 000. -/

/-- Truncate to 32 bits. -/
def mask32 (x : Nat) : Nat := x % 4294967296

/-- 32-bit left rotation. -/
def rotl32 (x n : Nat) : Nat := ((x <<< n) ||| (x >>> (32 - n))) % 4294967296

/-- 32-bit bitwise complement. -/
def compl32 (x : Nat) : Nat := Nat.xor x 4294967295

/-- The MD5 sine-derived round constants. -/
def md5K : List Nat :=
  [0xd76aa478, 0xe8c7b756, 0x242070db, 0xc1bdceee,
   0xf57c0faf, 0x4787c62a, 0xa8304613, 0xfd469501,
   0x698098d8, 0x8b44f7af, 0xffff5bb1, 0x895cd7be,
   0x6b901122, 0xfd987193, 0xa679438e, 0x49b40821,
   0xf61e2562, 0xc040b340, 0x265e5a51, 0xe9b6c7aa,
   0xd62f105d, 0x02441453, 0xd8a1e681, 0xe7d3fbc8,
   0x21e1cde6, 0xc33707d6, 0xf4d50d87, 0x455a14ed,
   0xa9e3e905, 0xfcefa3f8, 0x676f02d9, 0x8d2a4c8a,
   0xfffa3942, 0x8771f681, 0x6d9d6122, 0xfde5380c,
   0xa4beea44, 0x4bdecfa9, 0xf6bb4b60, 0xbebfbc70,
   0x289b7ec6, 0xeaa127fa, 0xd4ef3085, 0x04881d05,
   0xd9d4d039, 0xe6db99e5, 0x1fa27cf8, 0xc4ac5665,
   0xf4292244, 0x432aff97, 0xab9423a7, 0xfc93a039,
   0x655b59c3, 0x8f0ccc92, 0xffeff47d, 0x85845dd1,
   0x6fa87e4f, 0xfe2ce6e0, 0xa3014314, 0x4e0811a1,
   0xf7537e82, 0xbd3af235, 0x2ad7d2bb, 0xeb86d391]

/-- The MD5 per-round shift amounts. -/
def md5S : List Nat :=
  [7, 12, 17, 22, 7, 12, 17, 22, 7, 12, 17, 22, 7, 12, 17, 22,
   5, 9, 14, 20, 5, 9, 14, 20, 5, 9, 14, 20, 5, 9, 14, 20,
   4, 11, 16, 23, 4, 11, 16, 23, 4, 11, 16, 23, 4, 11, 16, 23,
   6, 10, 15, 21, 6, 10, 15, 21, 6, 10, 15, 21, 6, 10, 15, 21]

/-- Internal MD5 state (four 32-bit words as `Nat`). -/
structure MD5State where
  a : Nat
  b : Nat
  c : Nat
  d : Nat
deriving DecidableEq

/-- Round function and message-word index for round `i`. -/
def md5FG (i b c d : Nat) : Nat × Nat :=
  if i < 16 then (Nat.lor (Nat.land b c) (Nat.land (compl32 b) d), i)
  else if i < 32 then (Nat.lor (Nat.land d b) (Nat.land (compl32 d) c), (5 * i + 1) % 16)
  else if i < 48 then (Nat.xor b (Nat.xor c d), (3 * i + 5) % 16)
  else (Nat.xor c (Nat.lor b (compl32 d)), (7 * i) % 16)

/-- One MD5 round. -/
def md5Round (m : List Nat) (st : MD5State) (i : Nat) : MD5State :=
  let fg := md5FG i st.b st.c st.d
  let f2 := mask32 (fg.1 + st.a + md5K.getD i 0 + m.getD fg.2 0)
  ⟨st.d, mask32 (st.b + rotl32 f2 (md5S.getD i 0)), st.b, st.c⟩

/-- Process one 64-byte chunk. -/
def md5Chunk (st : MD5State) (chunk : List Nat) : MD5State :=
  let m := (List.range 16).map (fun j =>
    chunk.getD (4 * j) 0 + 256 * chunk.getD (4 * j + 1) 0 +
    65536 * chunk.getD (4 * j + 2) 0 + 16777216 * chunk.getD (4 * j + 3) 0)
  let r := (List.range 64).foldl (md5Round m) st
  ⟨mask32 (st.a + r.a), mask32 (st.b + r.b), mask32 (st.c + r.c), mask32 (st.d + r.d)⟩

/-- Split a byte list into 64-byte chunks (the input is already padded). -/
def chunks64 (l : List Nat) : List (List Nat) :=
  (List.range (l.length / 64)).map (fun i => (l.drop (64 * i)).take 64)

/-- Little-endian byte expansion (`k` bytes). -/
def leBytes (k n : Nat) : List Nat := (List.range k).map (fun j => (n / 256 ^ j) % 256)

/-- MD5 padding: `0x80`, zeros to 56 mod 64, then the 64-bit bit length. -/
def md5Pad (msg : List Nat) : List Nat :=
  let len := msg.length
  let zeros := (120 - ((len + 1) % 64)) % 64
  msg ++ [0x80] ++ List.replicate zeros 0 ++ leBytes 8 ((8 * len) % (2 ^ 64))

/-- The 16 digest bytes of MD5 of a byte string. -/
def md5Bytes (msg : List Nat) : List Nat :=
  let f := (chunks64 (md5Pad msg)).foldl md5Chunk ⟨0x67452301, 0xefcdab89, 0x98badcfe, 0x10325476⟩
  leBytes 4 f.a ++ leBytes 4 f.b ++ leBytes 4 f.c ++ leBytes 4 f.d

/-- UTF-8 encoding of one character (Python `str.encode("utf-8")`). -/
def charUtf8 (c : Char) : List Nat :=
  let n := c.toNat
  if n < 0x80 then [n]
  else if n < 0x800 then [0xC0 + n / 64, 0x80 + n % 64]
  else if n < 0x10000 then [0xE0 + n / 4096, 0x80 + (n / 64) % 64, 0x80 + n % 64]
  else [0xF0 + n / 262144, 0x80 + (n / 4096) % 64, 0x80 + (n / 64) % 64, 0x80 + n % 64]

/-- UTF-8 bytes of a string. -/
def utf8Bytes (s : String) : List Nat := s.data.flatMap charUtf8

/-- `int(hashlib.md5(s.encode("utf-8")).hexdigest()[:16], 16)`:
the first 8 digest bytes read as a big-endian integer. -/
def md5Trunc64 (s : String) : Nat :=
  ((md5Bytes (utf8Bytes s)).take 8).foldl (fun acc b => acc * 256 + b) 0

/-! ### Identity canonicalization (`src/pedigree_graph.py`) -/

/-- `KAPRELL_ID` from `src/pedigree_graph.py`. -/
def kaprellId : Int := -275

/-- `KAPRELL_REGNO` from `src/pedigree_graph.py`. -/
def kaprellRegno : String := "T-275"

/-- The name prefix tested by `_looks_like_kaprell_context`. -/
def kaprellName : String := "KAPRELL"

/-- `_synthetic_id`: deterministically map a non-numeric identifier to a
stable negative int, `-(int(md5_hex16, 16) % 2_000_000_000 + 1)`. -/
def syntheticId (token : String) : Int :=
  -(Int.ofNat (md5Trunc64 (pyStrip token) % 2000000000 + 1))

/-- `_is_curated_negative_id`: small negative IDs treated as curated/canonical
(the caller has already established the value is an `int`). -/
def isCuratedNegativeId (v : Int) : Bool := v < 0 && v.natAbs ≤ 1000000

/-- The string branch of `_canon_id` (shared by the `Val` and `JVal` models):
strip; empty ⇒ nothing; digits ⇒ parsed int; the curated Kaprell regno ⇒
`KAPRELL_ID`; otherwise a synthetic hash id.  The second component is the
retained external token (the stripped string). -/
def canonStr (v : String) : Option Int × Option String :=
  let s := pyStrip v
  if s = "" then (none, none)
  else if pyIsDigitStr s then (some (Int.ofNat (digitsToNat s)), none)
  else if pyUpperStr s = kaprellRegno then (some kaprellId, some s)
  else (some (syntheticId s), some s)

/-! ### Registration-number text normalization (`src/pedigree_parser.py`) -/

/-- The `_HYPHEN_LIKE` set of unicode hyphen/dash code points. -/
def hyphenLike (c : Char) : Bool :=
  c.toNat = 0x2010 || c.toNat = 0x2011 || c.toNat = 0x2012 || c.toNat = 0x2013 ||
  c.toNat = 0x2014 || c.toNat = 0x2212 || c.toNat = 0xFE63 || c.toNat = 0xFF0D

/-- Whitespace as matched by the regex class `\s` (ASCII subset). -/
def reIsSpace (c : Char) : Bool := pyIsSpace c

/-- Scanner for `re.sub(r"\s*-\s*", "-", s)`: whitespace runs adjacent to a
hyphen are deleted.  `afterDash` records that the pending whitespace run
immediately follows an emitted hyphen. -/
def collapseDashGo (afterDash : Bool) (pend : List Char) : List Char → List Char
  | [] => if afterDash then [] else pend
  | c :: rest =>
    if reIsSpace c then collapseDashGo afterDash (pend ++ [c]) rest
    else if c = '-' then '-' :: collapseDashGo true [] rest
    else (if afterDash then [] else pend) ++ c :: collapseDashGo false [] rest

/-- `_normalize_regno_text`: strip, replace unicode dashes by `-`, collapse
spacing around `-`. -/
def normalizeRegnoText (s : String) : String :=
  ⟨collapseDashGo false [] ((pyStrip s).data.map (fun c => if hyphenLike c then '-' else c))⟩

/-! ### Field values and records (`src/pedigree_graph.py`, merge inputs)

`Val` models the Python values occurring in the record fields the merge
reads: integers, strings and `None`. -/

inductive Val where
  | vNone : Val
  | vInt (n : Int) : Val
  | vStr (s : String) : Val
deriving DecidableEq

/-- `_canon_id` over `Val`: int unchanged; digit-string parsed; curated
token mapped to the curated id; other non-empty strings hashed; else nothing. -/
def canonId : Val → Option Int × Option String
  | .vInt n => (some n, none)
  | .vStr v => canonStr v
  | .vNone => (none, none)

/-- `_is_missing` over `Val`: `None`, or a string that strips/lowers into
one of the unknown markers. -/
def isMissing : Val → Bool
  | .vNone => true
  | .vInt _ => false
  | .vStr s =>
    let t := pyLowerStr (pyStrip s)
    t = "" || t = "unknown" || t = "none" || t = "null" || t = "?"

/-- `_is_missing` applied to an optional parent id (`int` or absent). -/
def isMissingOptInt : Option Int → Bool
  | none => true
  | some _ => false

/-- `_is_missing` applied to an optional external-token field. -/
def isMissingOptStr : Option String → Bool
  | none => true
  | some s => isMissing (.vStr s)

/-- One flat per-individual record, restricted to the fields
`build_merged_pedigree_graph` reads.  Extra record keys are copied verbatim
on insert and never touched afterwards, so they are inert for the merge
semantics and omitted from the model. -/
structure Record where
  horse_id : Val
  registration_number : Val
  father_id : Val
  mother_id : Val
  sex : Val
  birth_year : Val
  name : Val
  father_registration_number : Val
  father_name : Val
deriving DecidableEq

/-- `_node_id_source`: prefer `horse_id` (returned whenever not `None`),
else a non-blank stripped `registration_number`, else `None`. -/
def nodeIdSource (r : Record) : Val :=
  match r.horse_id with
  | .vNone =>
    match r.registration_number with
    | .vStr s => if pyStrip s ≠ "" then .vStr (pyStrip s) else .vNone
    | _ => .vNone
  | v => v

/-- `_looks_like_kaprell_context`: the incoming record labels its sire as
Kaprell by registration number or name. -/
def looksLikeKaprellContext (r : Record) : Bool :=
  (match r.father_registration_number with
   | .vStr s => pyUpperStr (pyStrip s) = kaprellRegno
   | _ => false) ||
  (match r.father_name with
   | .vStr s => (pyUpperStr (pyStrip s)).startsWith kaprellName
   | _ => false)

/-! ### Merged nodes and the merge fold -/

/-- A merged graph node: the fields `build_merged_pedigree_graph` writes.
`father_id`/`mother_id` hold canonical ints or are unknown; the external
token fields are absent until a non-numeric source token is canonicalized. -/
structure MNode where
  horse_id : Int
  father_id : Option Int
  mother_id : Option Int
  sex : Val
  birth_year : Val
  name : Val
  registration_number : Val
  external_id : Option String
  father_external_id : Option String
  mother_external_id : Option String
deriving DecidableEq

/-- Node inserted for a canonical id new to the graph (lines 194-211 of
`src/pedigree_graph.py`): all record fields copied, parents replaced by
their canonical form, external tokens attached when present. -/
def insertNode (hid : Int) (hidExt : Option String) (r : Record) : MNode :=
  { horse_id := hid
  , father_id := (canonId r.father_id).1
  , mother_id := (canonId r.mother_id).1
  , sex := r.sex
  , birth_year := r.birth_year
  , name := r.name
  , registration_number := r.registration_number
  , external_id := hidExt
  , father_external_id := (canonId r.father_id).2
  , mother_external_id := (canonId r.mother_id).2 }

/-- Enrichment of an existing node (lines 213-268 of
`src/pedigree_graph.py`).  The Python code performs a sequence of in-place
updates; each update reads and writes a single field, so the sequence is
presented field by field. -/
def enrichNode (hid : Int) (hidExt : Option String) (n : MNode) (r : Record) : MNode :=
  { horse_id := if n.horse_id ≠ hid then hid else n.horse_id
  , father_id :=
      match (canonId r.father_id).1, n.father_id with
      | some f, none => some f
      | some f, some e =>
        if e ≠ f && (f = kaprellId || looksLikeKaprellContext r || isCuratedNegativeId f)
        then some f else some e
      | none, e => e
  , mother_id :=
      match (canonId r.mother_id).1, n.mother_id with
      | some m, none => some m
      | some m, some e =>
        if e ≠ m && isCuratedNegativeId m then some m else some e
      | none, e => e
  , sex := if isMissing n.sex && !isMissing r.sex then r.sex else n.sex
  , birth_year := if isMissing n.birth_year && !isMissing r.birth_year then r.birth_year else n.birth_year
  , name := if isMissing n.name && !isMissing r.name then r.name else n.name
  , registration_number :=
      if isMissing n.registration_number && !isMissing r.registration_number
      then r.registration_number else n.registration_number
  , external_id :=
      match hidExt with
      | some t => if isMissingOptStr n.external_id then some t else n.external_id
      | none => n.external_id
  , father_external_id :=
      match (canonId r.father_id).2 with
      | some t => if isMissingOptStr n.father_external_id then some t else n.father_external_id
      | none => n.father_external_id
  , mother_external_id :=
      match (canonId r.mother_id).2 with
      | some t => if isMissingOptStr n.mother_external_id then some t else n.mother_external_id
      | none => n.mother_external_id }

/-- The merged graph, keyed by canonical int id. -/
def MGraph : Type := Int → Option MNode

/-- Pointwise graph update (`graph[hid] = node`). -/
def updateG (g : MGraph) (k : Int) (v : MNode) : MGraph :=
  fun j => if j = k then some v else g j

/-- The empty merged graph. -/
def emptyMGraph : MGraph := fun _ => none

/-- Merging one record into the graph: skip when the record id does not
canonicalize; insert when new; enrich when existing. -/
def mergeRecord (g : MGraph) (r : Record) : MGraph :=
  match canonId (nodeIdSource r) with
  | (none, _) => g
  | (some hid, hidExt) =>
    match g hid with
    | none => updateG g hid (insertNode hid hidExt r)
    | some n => updateG g hid (enrichNode hid hidExt n r)

/-- Folding a flat record list into a graph. -/
def mergeAll (g : MGraph) (rs : List Record) : MGraph := rs.foldl mergeRecord g

/-- `build_merged_pedigree_graph` merge core: fold every record of every
cached pedigree, in order, into one graph. -/
def buildMergedPedigreeGraph (pedigrees : List (List Record)) : MGraph :=
  pedigrees.foldl (fun g ped => ped.foldl mergeRecord g) emptyMGraph

/-! ### Dynamic values: loader and merge failure semantics

`load_all_cached_pedigrees` and the merge loop of
`build_merged_pedigree_graph` receive arbitrary JSON-shaped data.  `JVal`
models such values; merging is modelled in `Except Unit` where `.error`
stands for an uncaught Python exception (`AttributeError` from calling
`.get` on a non-dict record). -/

inductive JVal where
  | jnull : JVal
  | jint (n : Int) : JVal
  | jstr (s : String) : JVal
  | jlist (l : List JVal) : JVal
  | jdict (d : List (String × JVal)) : JVal

/-- A Python dict of dynamic values (association list, insertion ordered). -/
abbrev JDict : Type := List (String × JVal)

/-- `d.get(k)` on a dynamic dict (`None` when absent). -/
def jdictGet (d : JDict) (k : String) : JVal :=
  (((d.find? (fun p => p.1 = k)).map Prod.snd)).getD .jnull

/-- `d[k] = v` on a dynamic dict: existing keys keep their position, new
keys are appended (CPython dict semantics). -/
def jdictSet (d : JDict) (k : String) (v : JVal) : JDict :=
  if d.any (fun p => p.1 = k) then d.map (fun p => if p.1 = k then (k, v) else p)
  else d ++ [(k, v)]

/-- Is the dynamic value a dict (a record-like structure)? -/
def isJDict : JVal → Bool
  | .jdict _ => true
  | _ => false

/-- Equality test of a dynamic value against an int. -/
def jeqInt (v : JVal) (n : Int) : Bool :=
  match v with
  | .jint m => m = n
  | _ => false

/-- `_canon_id` over dynamic values: non-int non-str values (lists, dicts,
null) canonicalize to nothing. -/
def canonJ : JVal → Option Int × Option String
  | .jint n => (some n, none)
  | .jstr v => canonStr v
  | _ => (none, none)

/-- `_is_missing` over dynamic values (lists/dicts are not missing). -/
def isMissingJ : JVal → Bool
  | .jnull => true
  | .jstr s => isMissing (.vStr s)
  | _ => false

/-- `_node_id_source` over a dynamic record dict. -/
def nodeIdSourceJ (d : JDict) : JVal :=
  match jdictGet d ("horse_id") with
  | .jnull =>
    match jdictGet d ("registration_number") with
    | .jstr s => if pyStrip s ≠ "" then .jstr (pyStrip s) else .jnull
    | _ => .jnull
  | v => v

/-- `_looks_like_kaprell_context` over a dynamic record dict. -/
def looksLikeKaprellContextJ (d : JDict) : Bool :=
  (match jdictGet d ("father_registration_number") with
   | .jstr s => pyUpperStr (pyStrip s) = kaprellRegno
   | _ => false) ||
  (match jdictGet d ("father_name") with
   | .jstr s => (pyUpperStr (pyStrip s)).startsWith kaprellName
   | _ => false)

/-- Optional canonical id as a dynamic value (`int` or `None`). -/
def optToJ : Option Int → JVal
  | some n => .jint n
  | none => .jnull

/-- The dynamic merged graph. -/
abbrev JGraph : Type := List (Int × JDict)

/-- Graph lookup (`graph.get(hid)` as an option). -/
def jgraphGet (g : JGraph) (k : Int) : Option JDict :=
  (g.find? (fun p => p.1 = k)).map Prod.snd

/-- Graph update: existing keys keep their position, new keys are appended. -/
def jgraphSet (g : JGraph) (k : Int) (v : JDict) : JGraph :=
  if g.any (fun p => p.1 = k) then g.map (fun p => if p.1 = k then (k, v) else p)
  else g ++ [(k, v)]

/-- Dynamic insert: `{**dict(node), "horse_id": hid, "father_id": fid,
"mother_id": mid, "sex": node.get("sex")}` plus conditional external ids. -/
def insertDictJ (hid : Int) (hidExt : Option String) (d : JDict) : JDict :=
  let fatherC := canonJ (jdictGet d ("father_id"))
  let motherC := canonJ (jdictGet d ("mother_id"))
  let m := jdictSet d ("horse_id") (.jint hid)
  let m := jdictSet m ("father_id") (optToJ fatherC.1)
  let m := jdictSet m ("mother_id") (optToJ motherC.1)
  let m := jdictSet m ("sex") (jdictGet d ("sex"))
  let m := match hidExt with
    | some t => jdictSet m ("external_id") (.jstr t)
    | none => m
  let m := match fatherC.2 with
    | some t => jdictSet m ("father_external_id") (.jstr t)
    | none => m
  match motherC.2 with
  | some t => jdictSet m ("mother_external_id") (.jstr t)
  | none => m

/-- Dynamic enrichment of an existing node, mirroring lines 213-268 of
`src/pedigree_graph.py` as a sequence of dict updates. -/
def enrichDictJ (hid : Int) (hidExt : Option String) (ex : JDict) (d : JDict) : JDict :=
  let fatherC := canonJ (jdictGet d ("father_id"))
  let motherC := canonJ (jdictGet d ("mother_id"))
  let ex := if !jeqInt (jdictGet ex ("horse_id")) hid then jdictSet ex ("horse_id") (.jint hid) else ex
  let ex := match hidExt with
    | some t => if isMissingJ (jdictGet ex ("external_id")) then jdictSet ex ("external_id") (.jstr t) else ex
    | none => ex
  let ex := match fatherC.1 with
    | some f =>
      if isMissingJ (jdictGet ex ("father_id")) then jdictSet ex ("father_id") (.jint f)
      else match jdictGet ex ("father_id") with
        | .jint e =>
          if e ≠ f && (f = kaprellId || looksLikeKaprellContextJ d || isCuratedNegativeId f)
          then jdictSet ex ("father_id") (.jint f) else ex
        | _ => ex
    | none => ex
  let ex := match motherC.1 with
    | some m =>
      if isMissingJ (jdictGet ex ("mother_id")) then jdictSet ex ("mother_id") (.jint m)
      else match jdictGet ex ("mother_id") with
        | .jint e =>
          if e ≠ m && isCuratedNegativeId m then jdictSet ex ("mother_id") (.jint m) else ex
        | _ => ex
    | none => ex
  let ex := match fatherC.2 with
    | some t =>
      if isMissingJ (jdictGet ex ("father_external_id"))
      then jdictSet ex ("father_external_id") (.jstr t) else ex
    | none => ex
  let ex := match motherC.2 with
    | some t =>
      if isMissingJ (jdictGet ex ("mother_external_id"))
      then jdictSet ex ("mother_external_id") (.jstr t) else ex
    | none => ex
  let ex := if isMissingJ (jdictGet ex ("sex")) && !isMissingJ (jdictGet d ("sex"))
    then jdictSet ex ("sex") (jdictGet d ("sex")) else ex
  let ex := if isMissingJ (jdictGet ex ("birth_year")) && !isMissingJ (jdictGet d ("birth_year"))
    then jdictSet ex ("birth_year") (jdictGet d ("birth_year")) else ex
  let ex := if isMissingJ (jdictGet ex ("name")) && !isMissingJ (jdictGet d ("name"))
    then jdictSet ex ("name") (jdictGet d ("name")) else ex
  if isMissingJ (jdictGet ex ("registration_number")) && !isMissingJ (jdictGet d ("registration_number"))
  then jdictSet ex ("registration_number") (jdictGet d ("registration_number")) else ex

/-- Merging one dynamic record dict (total: dict records never raise). -/
def mergeDictRecordJ (g : JGraph) (d : JDict) : JGraph :=
  match canonJ (nodeIdSourceJ d) with
  | (none, _) => g
  | (some hid, hidExt) =>
    match jgraphGet g hid with
    | none => jgraphSet g hid (insertDictJ hid hidExt d)
    | some ex => jgraphSet g hid (enrichDictJ hid hidExt ex d)

/-- Merging one dynamic record: a non-dict record raises `AttributeError`
when the merge loop calls `node.get(...)`. -/
def mergeRecordJ (g : JGraph) (r : JVal) : Except Unit JGraph :=
  match r with
  | .jdict d => .ok (mergeDictRecordJ g d)
  | _ => .error ()

/-- Merging a flat record list, aborting on the first raised exception. -/
def mergeRecListJ : JGraph → List JVal → Except Unit JGraph
  | g, [] => .ok g
  | g, r :: rest =>
    match mergeRecordJ g r with
    | .ok g2 => mergeRecListJ g2 rest
    | .error e => .error e

/-- Merging a sequence of loaded pedigree fragments. -/
def mergePedigreesJ : JGraph → List (List JVal) → Except Unit JGraph
  | g, [] => .ok g
  | g, ped :: rest =>
    match mergeRecListJ g ped with
    | .ok g2 => mergePedigreesJ g2 rest
    | .error e => .error e

/-- `load_all_cached_pedigrees` on the parsed contents of the cache files:
`none` stands for a file whose read/parse raised (caught and skipped);
a top-level list is taken whole; a dict is taken when its `"horses"` entry
is a list; anything else is skipped. -/
def loadAllCachedPedigrees (files : List (Option JVal)) : List (List JVal) :=
  files.foldl (fun acc f =>
    match f with
    | none => acc
    | some (.jlist l) => acc ++ [l]
    | some (.jdict d) =>
      match (d.find? (fun p => p.1 = "horses")).map Prod.snd with
      | some (.jlist l) => acc ++ [l]
      | _ => acc
    | some _ => acc) []

/-- The merge pipeline of `build_merged_pedigree_graph` over raw file
contents: load (skipping malformed files), then merge every record of
every loaded fragment. -/
def buildMergedFromFiles (files : List (Option JVal)) : Except Unit JGraph :=
  mergePedigreesJ [] (loadAllCachedPedigrees files)

/-- Does every record of every fragment have record-like (dict) shape? -/
def allRecordsDicts (peds : List (List JVal)) : Bool :=
  peds.all (fun ped => ped.all isJDict)

/-- Is an `Except` value a success? -/
def exceptOk {ε α : Type} : Except ε α → Bool
  | .ok _ => true
  | .error _ => false

/-! ### Graphs consumed by the read-only traversals

The scorer, summarizers and projector read plain dict nodes.  A node is an
association list of field values (so that an empty — falsy — dict is
representable), and a graph is an insertion-ordered association list of
nodes keyed by int. -/

/-- A node as seen by the traversals: a Python dict of `Val` fields. -/
abbrev PyNode : Type := List (String × Val)

/-- A graph: int-keyed dict of nodes. -/
abbrev PyGraph : Type := List (Int × PyNode)

/-- `node.get(k)` (`None` when absent). -/
def pyGet (d : PyNode) (k : String) : Val :=
  ((d.find? (fun p => p.1 = k)).map Prod.snd).getD .vNone

/-- `k in graph`. -/
def hasKey (g : PyGraph) (k : Int) : Bool := g.any (fun p => p.1 = k)

/-- `graph.get(k)` as an option. -/
def graphFind (g : PyGraph) (k : Int) : Option PyNode :=
  (g.find? (fun p => p.1 = k)).map Prod.snd

/-- `graph.get(k) or {}`. -/
def graphGetD (g : PyGraph) (k : Int) : PyNode :=
  match graphFind g k with
  | some node => if node = [] then [] else node
  | none => []

/-! ### Influence scorer (`src/pedigree_scoring.py`) -/

/-- `_get_parent_id`: the primary key when it holds an int, else the
fallback key (`"father"`/`"mother"`) when it holds an int, else nothing. -/
def getParentId (node : PyNode) (primary fallback : String) : Option Int :=
  match pyGet node primary with
  | .vInt n => some n
  | _ =>
    match pyGet node fallback with
    | .vInt n => some n
    | _ => none

/-- Per-ancestor score accumulator.  Python stores floats; the decayed
scores are modelled exactly in `ℚ` and the appearance count, an integer in
both representations, as `Nat`. -/
structure ScoreVals where
  count : Nat
  score_exp : ℚ
  score_exp_slow : ℚ
  score_lin : ℚ
  score_power : ℚ
deriving DecidableEq

/-- The all-zero accumulator (`defaultdict` default). -/
def zeroScore : ScoreVals := ⟨0, 0, 0, 0, 0⟩

/-- Scores keyed by ancestor id, in `defaultdict` insertion order. -/
abbrev ScoreMap : Type := List (Int × ScoreVals)

/-- `scores[aid]` bump: update in place when present, else append the
freshly-created entry (defaultdict insertion order). -/
def bumpScore (m : ScoreMap) (aid : Int) (wExp wSlow wLin wPow : ℚ) : ScoreMap :=
  let add := fun (s : ScoreVals) =>
    ⟨s.count + 1, s.score_exp + wExp, s.score_exp_slow + wSlow,
     s.score_lin + wLin, s.score_power + wPow⟩
  if m.any (fun p => p.1 = aid) then m.map (fun p => if p.1 = aid then (aid, add p.2) else p)
  else m ++ [(aid, add zeroScore)]

/-- `_ = scores[fid]`: touching a `defaultdict` key creates a zero entry. -/
def touchScore (m : ScoreMap) (fid : Int) : ScoreMap :=
  if m.any (fun p => p.1 = fid) then m else m ++ [(fid, zeroScore)]

/-- One wavefront expansion of the scorer: for each id of the current
generation list, append its father then mother when present in the graph
(duplicates preserved). -/
def scoreNext (g : PyGraph) (current : List Int) : List Int :=
  current.flatMap (fun hid =>
    let node := graphGetD g hid
    let f := getParentId node ("father_id") "father"
    let m := getParentId node ("mother_id") "mother"
    (match f with
     | some fv => if hasKey g fv then [fv] else []
     | none => []) ++
    (match m with
     | some mv => if hasKey g mv then [mv] else []
     | none => []))

/-- `w_lin` from the scorer. -/
def wLin (maxDepth gen : Nat) : ℚ :=
  if gen = 0 then 1
  else if gen > maxDepth then 0
  else ((maxDepth : ℚ) - (gen : ℚ) + 1) / (maxDepth : ℚ)

/-- The generation loop `for gen in range(1, max_depth + 1)` with early
break on an empty wavefront; `fuel` counts the remaining generations. -/
def scoreLoop (g : PyGraph) (alpha : ℚ) (p maxDepth : Nat) :
    Nat → Nat → List Int → ScoreMap → ScoreMap
  | 0, _, _, scores => scores
  | fuel + 1, gen, current, scores =>
    let nxt := scoreNext g current
    if nxt = [] then scores
    else
      let wExp : ℚ := 1 / (2 ^ gen : ℚ)
      let wSlow : ℚ := alpha ^ gen
      let wLinV := wLin maxDepth gen
      let wPow : ℚ := 1 / ((gen : ℚ) + 1) ^ p
      let scores := nxt.foldl (fun s aid => bumpScore s aid wExp wSlow wLinV wPow) scores
      scoreLoop g alpha p maxDepth fuel (gen + 1) nxt scores

/-- `ancestor_influence_scores`.  The float envelope `float(int(count))`
is the identity on the integral counts and on the exact rational scores,
so the output entries are the accumulators themselves.  `power_p` is
modelled for natural exponents (the default is `1.0`). -/
def ancestorInfluenceScores (g : PyGraph) (rootId : Int) (maxDepth : Nat)
    (includeRoot : Bool) (alpha : ℚ) (p : Nat) (focusIds : Option (List Int)) : ScoreMap :=
  if !hasKey g rootId then []
  else
    let scores0 : ScoreMap := if includeRoot then [(rootId, ⟨1, 1, 1, 1, 1⟩)] else []
    let scores := scoreLoop g alpha p maxDepth maxDepth 1 [rootId] scores0
    let scores := match focusIds with
      | some fids => fids.foldl touchScore scores
      | none => scores
    scores.filterMap (fun q =>
      match focusIds with
      | some fids => if fids.contains q.1 then some q else none
      | none => some q)

/-! ### Generation summaries (`src/pedigree_summary.py`) -/

/-- Summary record of `merged_generation_summary`. -/
structure GenSummary where
  total_nodes : Nat
  max_generation : Nat
  open_nodes : Nat
  closed_nodes : Nat
deriving DecidableEq

/-- One step of the deduplicating BFS: pop `(nid, d)`; unless the depth cap
is reached, append each parent that is an in-graph int not yet seen, at
distance `d + 1`, to both the distance map and the queue.  The fuel bounds
the number of pops; each pushed entry corresponds to a fresh key of `dist`,
so `graph length + 1` pops suffice. -/
def bfsDist (g : PyGraph) (maxDepth : Option Nat) :
    Nat → List (Int × Nat) → List (Int × Nat) → List (Int × Nat)
  | 0, _, dist => dist
  | _ + 1, [], dist => dist
  | fuel + 1, (nid, d) :: q, dist =>
    let cut : Bool := match maxDepth with
      | some md => decide (d ≥ md)
      | none => false
    if cut then bfsDist g maxDepth fuel q dist
    else
      let node := graphGetD g nid
      let step := fun (acc : List (Int × Nat) × List (Int × Nat)) (pv : Val) =>
        match pv with
        | .vInt pid =>
          if hasKey g pid && !acc.2.any (fun e => e.1 = pid)
          then (acc.1 ++ [(pid, d + 1)], acc.2 ++ [(pid, d + 1)])
          else acc
        | _ => acc
      let res := [pyGet node ("father_id"), pyGet node ("mother_id")].foldl step (q, dist)
      bfsDist g maxDepth fuel res.1 res.2

/-- `Counter(dist.values())` followed by `dict(sorted(...))`: per-generation
counts in ascending generation order. -/
def genCounts (dist : List (Int × Nat)) : List (Nat × Nat) :=
  let gens := dist.map Prod.snd
  (List.range (gens.foldl max 0 + 1)).filterMap (fun d =>
    let c := gens.count d
    if c ≠ 0 then some (d, c) else none)

/-- `merged_generation_summary`: unique-ancestor BFS summary. -/
def mergedGenerationSummary (g : PyGraph) (rootId : Int) (maxDepth : Option Nat) :
    GenSummary × List (Nat × Nat) :=
  if !hasKey g rootId then (⟨0, 0, 0, 0⟩, [])
  else
    let dist := bfsDist g maxDepth (g.length + 1) [(rootId, 0)] [(rootId, 0)]
    let counts := genCounts dist
    let flags := dist.map (fun e =>
      let node := graphGetD g e.1
      let fKnown := match pyGet node ("father_id") with
        | .vInt f => hasKey g f
        | _ => false
      let mKnown := match pyGet node ("mother_id") with
        | .vInt m => hasKey g m
        | _ => false
      (fKnown, mKnown))
    let closedN := (flags.filter (fun fm => !fm.1 && !fm.2)).length
    let openN := (flags.filter (fun fm => (fm.1 || fm.2) && (!fm.1 || !fm.2))).length
    (⟨dist.length, (dist.map Prod.snd).foldl max 0, openN, closedN⟩, counts)

/-- One wavefront expansion of the appearance summary (no `"father"` /
`"mother"` fallback keys here, unlike the scorer). -/
def appearanceNext (g : PyGraph) (current : List Int) : List Int :=
  current.flatMap (fun hid =>
    let node := graphGetD g hid
    (match pyGet node ("father_id") with
     | .vInt f => if hasKey g f then [f] else []
     | _ => []) ++
    (match pyGet node ("mother_id") with
     | .vInt m => if hasKey g m then [m] else []
     | _ => []))

/-- Generation loop of `merged_generation_appearance_summary`. -/
def appearanceLoop (g : PyGraph) :
    Nat → Nat → List Int → List (Nat × Nat) → List (Nat × Nat) →
    List (Nat × Nat) × List (Nat × Nat)
  | 0, _, _, app, uniq => (app, uniq)
  | fuel + 1, gen, current, app, uniq =>
    let nxt := appearanceNext g current
    if nxt = [] then (app, uniq)
    else appearanceLoop g fuel (gen + 1) nxt
      (app ++ [(gen, nxt.length)]) (uniq ++ [(gen, nxt.eraseDups.length)])

/-- `merged_generation_appearance_summary`. -/
def mergedGenerationAppearanceSummary (g : PyGraph) (rootId : Int) (maxDepth : Nat) :
    List (Nat × Nat) × List (Nat × Nat) :=
  if !hasKey g rootId then ([], [])
  else appearanceLoop g maxDepth 1 [rootId] [(0, 1)] [(0, 1)]

/-! ### Ancestry projection (`src/pedigree_projection.py`) -/

/-- State threaded through the recursive `walk`. -/
structure ProjState where
  projected : List (Int × PyNode)
  has_more : List Int
  visited : List Int
deriving DecidableEq

/-- The recursive `walk(horse_id, depth)`: skip visited ids and absent or
falsy nodes; record the node; at the depth cut flag it when a parent is
still present in the graph; otherwise recurse into the in-graph parents.
The fuel bounds the recursion nesting; every productive call visits a fresh
graph key, so `graph length + 2` dominates it. -/
def projWalk (g : PyGraph) (maxDepth : Nat) :
    Nat → ProjState → Int → Nat → ProjState
  | 0, st, _, _ => st
  | fuel + 1, st, hid, depth =>
    if st.visited.contains hid then st
    else
      match graphFind g hid with
      | none => st
      | some node =>
        if node = [] then st
        else
          let st : ProjState :=
            { projected := st.projected ++ [(hid, node)]
            , has_more := st.has_more
            , visited := st.visited ++ [hid] }
          let fatherV := pyGet node ("father_id")
          let motherV := pyGet node ("mother_id")
          let fIn := match fatherV with
            | .vInt f => hasKey g f
            | _ => false
          let mIn := match motherV with
            | .vInt m => hasKey g m
            | _ => false
          if depth ≥ maxDepth then
            if fIn || mIn then { st with has_more := st.has_more ++ [hid] } else st
          else
            let st := match fatherV with
              | .vInt f => if hasKey g f then projWalk g maxDepth fuel st f (depth + 1) else st
              | _ => st
            match motherV with
            | .vInt m => if hasKey g m then projWalk g maxDepth fuel st m (depth + 1) else st
            | _ => st

/-- `project_ancestry`: the projected subgraph and the `has_more` frontier. -/
def projectAncestry (g : PyGraph) (rootId : Int) (maxDepth : Nat) :
    List (Int × PyNode) × List Int :=
  let st := projWalk g maxDepth (g.length + 2) ⟨[], [], []⟩ rootId 0
  (st.projected, st.has_more)

/-! ### Spec-side model for the projection order-independence claim

`specBfsProject` follows the specification's words (§4.3): a breadth-first
traversal in which each node is expanded at its minimal generation distance
from the root, with the projector's node-inclusion rules (present, truthy)
and frontier rule (at the cut depth, an in-graph parent remains). -/

/-- Is `k` bound to a truthy (non-empty) node? -/
def truthyNode (g : PyGraph) (k : Int) : Bool :=
  match graphFind g k with
  | some node => node ≠ []
  | none => false

/-- In-graph parent ids of an included node (father first). -/
def parentKeysIn (g : PyGraph) (k : Int) : List Int :=
  let node := graphGetD g k
  (match pyGet node ("father_id") with
   | .vInt f => if hasKey g f then [f] else []
   | _ => []) ++
  (match pyGet node ("mother_id") with
   | .vInt m => if hasKey g m then [m] else []
   | _ => [])

/-- Spec model: level-synchronous breadth-first expansion; every node is
expanded at the level where it first appears (its minimal distance). -/
def specBfsLoop (g : PyGraph) (maxDepth : Nat) :
    Nat → Nat → List Int → List Int → List Int × List Int
  | 0, _, _, keys => (keys, [])
  | fuel + 1, depth, current, keys =>
    if current = [] then (keys, [])
    else if depth ≥ maxDepth then
      (keys, current.filter (fun n => !(parentKeysIn g n).isEmpty))
    else
      let nxt := ((current.flatMap (parentKeysIn g)).filter
        (fun p => truthyNode g p && !keys.contains p)).eraseDups
      specBfsLoop g maxDepth fuel (depth + 1) nxt (keys ++ nxt)

/-- Spec model of `project_ancestry` as a minimal-distance breadth-first
traversal: returns the included key set (in first-reached order) and the
frontier of depth-`maxDepth` nodes with ancestry beyond the cut. -/
def specBfsProject (g : PyGraph) (rootId : Int) (maxDepth : Nat) :
    List Int × List Int :=
  if truthyNode g rootId then specBfsLoop g maxDepth (maxDepth + 1) 0 [rootId] [rootId]
  else ([], [])

/-- `x` is reachable from `root` along a parent chain of length `d`: each
step goes from a truthy in-graph node to a parent id that is an in-graph
int (exactly the edges `walk` may traverse). -/
inductive ReachWithin (g : PyGraph) (root : Int) : Int → Nat → Prop where
  | refl : ReachWithin g root root 0
  | step (x y : Int) (d : Nat) :
      ReachWithin g root x d →
      truthyNode g x = true →
      y ∈ parentKeysIn g x →
      ReachWithin g root y (d + 1)

/-! ### Per-key and per-field views of the merge fold

The merge touches exactly one graph key per record and reads only that
key's binding, so the fold localizes to a per-key scalar fold; within one
node, every update reads and writes a single field, so the per-key fold
further decomposes into independent per-field folds.  The following
definitions capture those views for the proofs. -/

/-- How one record transforms the binding of the fixed key `k`. -/
def stepAt (k : Int) (s : Option MNode) (r : Record) : Option MNode :=
  match canonId (nodeIdSource r) with
  | (none, _) => s
  | (some hid, hidExt) =>
    if hid = k then
      some (match s with
        | none => insertNode hid hidExt r
        | some n => enrichNode hid hidExt n r)
    else s

/-- Does the record merge into key `k`? -/
def matchesKey (k : Int) (r : Record) : Bool :=
  (canonId (nodeIdSource r)).1 = some k

/-- The external token attached to the record's own id. -/
def hidExtOf (r : Record) : Option String := (canonId (nodeIdSource r)).2

/-- Enriching a node by a list of records for key `k`. -/
def enrichFold (k : Int) (n : MNode) (L : List Record) : MNode :=
  L.foldl (fun n r => enrichNode k (hidExtOf r) n r) n

/-- Parent-field data carried by one record: the canonical parent id
together with its override capability. -/
def pdataF (r : Record) : Option (Int × Bool) :=
  (canonId r.father_id).1.map (fun f =>
    (f, f = kaprellId || looksLikeKaprellContext r || isCuratedNegativeId f))

/-- Mother-field data carried by one record. -/
def pdataM (r : Record) : Option (Int × Bool) :=
  (canonId r.mother_id).1.map (fun m => (m, isCuratedNegativeId m))

/-- Scalar evolution of a parent field: fill when unknown, overwrite on a
different override-capable incoming value, else keep. -/
def pstep (c : Option Int) (d : Option (Int × Bool)) : Option Int :=
  match d with
  | none => c
  | some fo =>
    match c with
    | none => some fo.1
    | some e => if e ≠ fo.1 && fo.2 then some fo.1 else some e

/-- Is the parent datum override-capable? -/
def isOcD : Option (Int × Bool) → Bool
  | some (_, true) => true
  | _ => false

/-- Scalar evolution of a fill-once descriptive field. -/
def fillStep (c v : Val) : Val :=
  if isMissing c && !isMissing v then v else c

/-- Scalar evolution of an external-token field. -/
def extStep (c t : Option String) : Option String :=
  match t with
  | none => c
  | some s => if isMissingOptStr c then some s else c

/-- Scalar evolution of the `horse_id` field under enrichment at key `k`. -/
def hidStep (k : Int) (c : Int) (_ : Record) : Int :=
  if c ≠ k then k else c

/-- Equality of two int lists viewed as sets. -/
def listSetEq (a b : List Int) : Bool :=
  a.all (fun x => b.contains x) && b.all (fun x => a.contains x)

/-- The scoring scenario graph of the specification:
`{1:{father:2,mother:3}, 2:{father:9,mother:10}, 3:{father:9,mother:11}, 9:{},10:{},11:{}}`. -/
def scoringScenarioGraph : PyGraph :=
  [(1, [("father_id", Val.vInt 2), ("mother_id", Val.vInt 3)]),
   (2, [("father_id", Val.vInt 9), ("mother_id", Val.vInt 10)]),
   (3, [("father_id", Val.vInt 9), ("mother_id", Val.vInt 11)]),
   (9, []), (10, []), (11, [])]

/-- A graph on which the depth-first projection and the minimal-distance
breadth-first expansion disagree at `max_depth = 3`: node 5 is first
reached at depth 3 along the father line and cut there, so its parent 6 is
never projected, although node 5 sits at minimal distance 1 (mother). -/
def projScenarioGraph : PyGraph :=
  [(1, [("father_id", Val.vInt 2), ("mother_id", Val.vInt 5)]),
   (2, [("father_id", Val.vInt 3)]),
   (3, [("father_id", Val.vInt 5)]),
   (5, [("father_id", Val.vInt 6)]),
   (6, [("father_id", Val.vNone)])]

/-- A record giving node 7 an ordinary father reference 500. -/
def recOrdinary500 : Record :=
  ⟨.vInt 7, .vNone, .vInt 500, .vNone, .vNone, .vNone, .vNone, .vNone, .vNone⟩

/-- A record giving node 7 the curated father reference -275. -/
def recCurated275 : Record :=
  ⟨.vInt 7, .vNone, .vInt (-275), .vNone, .vNone, .vNone, .vNone, .vNone, .vNone⟩

/-- Field-knownness preservation between two nodes: every field that is
known (not missing) on the first is still known on the second. -/
def knownPreserved (a b : MNode) : Prop :=
  (isMissingOptInt a.father_id = false → isMissingOptInt b.father_id = false) ∧
  (isMissingOptInt a.mother_id = false → isMissingOptInt b.mother_id = false) ∧
  (isMissing a.sex = false → isMissing b.sex = false) ∧
  (isMissing a.birth_year = false → isMissing b.birth_year = false) ∧
  (isMissing a.name = false → isMissing b.name = false) ∧
  (isMissing a.registration_number = false → isMissing b.registration_number = false) ∧
  (isMissingOptStr a.external_id = false → isMissingOptStr b.external_id = false) ∧
  (isMissingOptStr a.father_external_id = false → isMissingOptStr b.father_external_id = false) ∧
  (isMissingOptStr a.mother_external_id = false → isMissingOptStr b.mother_external_id = false)

/-! ## Theorems

### Scalar fold lemmas for the merge -/

theorem pstep_oc (f : Int) (c : Option Int) : pstep c (some (f, true)) = some f := by
  cases c with
  | none => rfl
  | some e =>
    simp only [pstep]
    by_cases h : e = f
    · simp [h]
    · simp [h]

theorem isOcD_some (f : Int) (b : Bool) : isOcD (some (f, b)) = b := by
  cases b <;> rfl

theorem pstep_not_oc (d : Option (Int × Bool)) (hd : isOcD d = false) (e : Int) :
    pstep (some e) d = some e := by
  cases d with
  | none => rfl
  | some fo =>
    obtain ⟨f, b⟩ := fo
    rw [isOcD_some] at hd
    subst hd
    simp [pstep]

theorem pstep_isSome (c : Option Int) (e : Int) (h : c = some e) (d : Option (Int × Bool)) :
    ∃ e2, pstep c d = some e2 := by
  subst h
  cases d with
  | none => exact ⟨e, rfl⟩
  | some fo =>
    simp only [pstep]
    split
    · exact ⟨fo.1, rfl⟩
    · exact ⟨e, rfl⟩

theorem pfold_isSome (L : List (Option (Int × Bool))) (e : Int) :
    ∃ e2, L.foldl pstep (some e) = some e2 := by
  induction L generalizing e with
  | nil => exact ⟨e, rfl⟩
  | cons d L ih =>
    obtain ⟨e1, h1⟩ := pstep_isSome (some e) e rfl d
    rw [List.foldl_cons, h1]
    exact ih e1

theorem pfold_const (L : List (Option (Int × Bool))) (hoc : ∃ d ∈ L, isOcD d = true) :
    ∀ c c', L.foldl pstep c = L.foldl pstep c' := by
  induction L with
  | nil => simp at hoc
  | cons d L ih =>
    intro c c'
    obtain ⟨d0, hd0, hoc0⟩ := hoc
    rcases List.mem_cons.mp hd0 with h | h
    · subst h
      cases d0 with
      | none => simp [isOcD] at hoc0
      | some fo =>
        obtain ⟨f, b⟩ := fo
        rw [isOcD_some] at hoc0
        subst hoc0
        rw [List.foldl_cons, List.foldl_cons, pstep_oc, pstep_oc]
    · exact ih ⟨d0, h, hoc0⟩ (pstep c d) (pstep c' d)

theorem pfold_nowrite (L : List (Option (Int × Bool))) (hoc : ∀ d ∈ L, isOcD d = false)
    (e : Int) : L.foldl pstep (some e) = some e := by
  induction L with
  | nil => rfl
  | cons d L ih =>
    rw [List.foldl_cons, pstep_not_oc d (hoc d (List.mem_cons_self d L)) e]
    exact ih (fun d2 hd2 => hoc d2 (List.mem_cons_of_mem d hd2))

theorem pfold_idem (L : List (Option (Int × Bool))) (c : Option Int) :
    L.foldl pstep (L.foldl pstep c) = L.foldl pstep c := by
  by_cases hoc : ∃ d ∈ L, isOcD d = true
  · exact pfold_const L hoc _ c
  · push_neg at hoc
    have hoc2 : ∀ d ∈ L, isOcD d = false := fun d hd => by
      have := hoc d hd
      simpa using this
    cases hF : L.foldl pstep c with
    | some e => exact pfold_nowrite L hoc2 e
    | none =>
      cases c with
      | none => exact hF
      | some e =>
        obtain ⟨e2, h2⟩ := pfold_isSome L e
        rw [hF] at h2
        exact absurd h2 (by simp)

theorem ffold_persist (L : List Val) (c : Val) (h : isMissing c = false) :
    L.foldl fillStep c = c := by
  induction L with
  | nil => rfl
  | cons v L ih =>
    rw [List.foldl_cons]
    have : fillStep c v = c := by simp [fillStep, h]
    rw [this]
    exact ih

theorem ffold_missing (L : List Val) (c : Val) (h : isMissing (L.foldl fillStep c) = true) :
    L.foldl fillStep c = c := by
  induction L generalizing c with
  | nil => rfl
  | cons v L ih =>
    rw [List.foldl_cons] at h ⊢
    cases hcv : (isMissing c && !isMissing v) with
    | true =>
      have hv : fillStep c v = v := by simp [fillStep, hcv]
      have hvm : isMissing v = false := by
        have := (Bool.and_eq_true _ _).mp hcv
        simpa using this.2
      rw [hv] at h
      rw [ffold_persist L v hvm] at h
      rw [hvm] at h
      exact absurd h (by simp)
    | false =>
      have hv : fillStep c v = c := by simp [fillStep, hcv]
      rw [hv] at h ⊢
      exact ih c h

theorem ffold_seed (L : List Val) (v : Val) :
    L.foldl fillStep (fillStep (L.foldl fillStep v) v) = L.foldl fillStep v := by
  cases hm : isMissing (L.foldl fillStep v) with
  | true =>
    have he : L.foldl fillStep v = v := ffold_missing L v hm
    rw [he] at hm ⊢
    have h1 : fillStep v v = v := by simp [fillStep, hm]
    rw [h1, he]
  | false =>
    have h1 : fillStep (L.foldl fillStep v) v = L.foldl fillStep v := by
      simp [fillStep, hm]
    rw [h1]
    exact ffold_persist L _ hm

theorem efold_persist (L : List (Option String)) (c : Option String)
    (h : isMissingOptStr c = false) : L.foldl extStep c = c := by
  induction L with
  | nil => rfl
  | cons t L ih =>
    rw [List.foldl_cons]
    have : extStep c t = c := by
      cases t with
      | none => rfl
      | some s => simp [extStep, h]
    rw [this]
    exact ih

theorem extStep_missing (c : Option String) (s : String) (h : isMissingOptStr c = true) :
    extStep c (some s) = some s := by
  simp [extStep, h]

theorem extStep_known (c : Option String) (s : String) (h : isMissingOptStr c = false) :
    extStep c (some s) = c := by
  simp [extStep, h]

theorem efold_idem (L : List (Option String)) (c : Option String) :
    L.foldl extStep (L.foldl extStep c) = L.foldl extStep c := by
  induction L generalizing c with
  | nil => rfl
  | cons t L ih =>
    have hc : ∀ x : Option String, (t :: L).foldl extStep x = L.foldl extStep (extStep x t) :=
      fun x => rfl
    rw [hc c, hc (L.foldl extStep (extStep c t))]
    cases t with
    | none =>
      have h0 : ∀ x : Option String, extStep x none = x := fun x => rfl
      rw [h0, h0]
      exact ih c
    | some s =>
      cases hF : isMissingOptStr (L.foldl extStep (extStep c (some s))) with
      | true =>
        rw [extStep_missing _ s hF]
        cases hcm : isMissingOptStr c with
        | true => rw [extStep_missing c s hcm]
        | false =>
          rw [extStep_known c s hcm] at hF
          rw [efold_persist L c hcm] at hF
          rw [hcm] at hF
          exact absurd hF (by simp)
      | false =>
        rw [extStep_known _ s hF]
        exact efold_persist L _ hF

theorem efold_seed (L : List (Option String)) (e : Option String) :
    L.foldl extStep (extStep (L.foldl extStep e) e) = L.foldl extStep e := by
  cases e with
  | none =>
    have h0 : ∀ x : Option String, extStep x none = x := fun x => rfl
    rw [h0]
    exact efold_idem L none
  | some t =>
    cases hF : isMissingOptStr (L.foldl extStep (some t)) with
    | true => rw [extStep_missing _ t hF]
    | false =>
      rw [extStep_known _ t hF]
      exact efold_persist L _ hF

theorem hidStep_eq (k c : Int) (r : Record) : hidStep k c r = k := by
  by_cases h : c = k
  · simp [hidStep, h]
  · simp [hidStep, h]

theorem hidFold_eq (k : Int) (L : List Record) (c : Int) (h : c = k) :
    L.foldl (hidStep k) c = k := by
  induction L generalizing c with
  | nil => exact h
  | cons r L ih =>
    rw [List.foldl_cons, hidStep_eq]
    exact ih k rfl

/-! ### Field decomposition of insert and enrich -/

theorem enrich_horse (hid : Int) (e : Option String) (n : MNode) (r : Record) :
    (enrichNode hid e n r).horse_id = hidStep hid n.horse_id r := rfl

theorem enrich_father (hid : Int) (e : Option String) (n : MNode) (r : Record) :
    (enrichNode hid e n r).father_id = pstep n.father_id (pdataF r) := by
  cases hc : (canonId r.father_id).1 with
  | none => cases hn : n.father_id <;> simp [enrichNode, pstep, pdataF, hc, hn]
  | some f => cases hn : n.father_id <;> simp [enrichNode, pstep, pdataF, hc, hn]

theorem enrich_mother (hid : Int) (e : Option String) (n : MNode) (r : Record) :
    (enrichNode hid e n r).mother_id = pstep n.mother_id (pdataM r) := by
  cases hc : (canonId r.mother_id).1 with
  | none => cases hn : n.mother_id <;> simp [enrichNode, pstep, pdataM, hc, hn]
  | some m => cases hn : n.mother_id <;> simp [enrichNode, pstep, pdataM, hc, hn]

theorem enrich_sex (hid : Int) (e : Option String) (n : MNode) (r : Record) :
    (enrichNode hid e n r).sex = fillStep n.sex r.sex := rfl

theorem enrich_birth_year (hid : Int) (e : Option String) (n : MNode) (r : Record) :
    (enrichNode hid e n r).birth_year = fillStep n.birth_year r.birth_year := rfl

theorem enrich_name (hid : Int) (e : Option String) (n : MNode) (r : Record) :
    (enrichNode hid e n r).name = fillStep n.name r.name := rfl

theorem enrich_regnum (hid : Int) (e : Option String) (n : MNode) (r : Record) :
    (enrichNode hid e n r).registration_number
      = fillStep n.registration_number r.registration_number := rfl

theorem enrich_external (hid : Int) (e : Option String) (n : MNode) (r : Record) :
    (enrichNode hid e n r).external_id = extStep n.external_id e := by
  cases e <;> rfl

theorem enrich_father_external (hid : Int) (e : Option String) (n : MNode) (r : Record) :
    (enrichNode hid e n r).father_external_id
      = extStep n.father_external_id (canonId r.father_id).2 := by
  cases h : (canonId r.father_id).2 <;> simp [enrichNode, extStep, h]

theorem enrich_mother_external (hid : Int) (e : Option String) (n : MNode) (r : Record) :
    (enrichNode hid e n r).mother_external_id
      = extStep n.mother_external_id (canonId r.mother_id).2 := by
  cases h : (canonId r.mother_id).2 <;> simp [enrichNode, extStep, h]

theorem insert_father (hid : Int) (e : Option String) (r : Record) :
    (insertNode hid e r).father_id = pstep none (pdataF r) := by
  cases hc : (canonId r.father_id).1 <;> simp [insertNode, pstep, pdataF, hc]

theorem insert_mother (hid : Int) (e : Option String) (r : Record) :
    (insertNode hid e r).mother_id = pstep none (pdataM r) := by
  cases hc : (canonId r.mother_id).1 <;> simp [insertNode, pstep, pdataM, hc]

theorem mnode_eq_of_fields (a b : MNode)
    (h1 : a.horse_id = b.horse_id) (h2 : a.father_id = b.father_id)
    (h3 : a.mother_id = b.mother_id) (h4 : a.sex = b.sex)
    (h5 : a.birth_year = b.birth_year) (h6 : a.name = b.name)
    (h7 : a.registration_number = b.registration_number)
    (h8 : a.external_id = b.external_id)
    (h9 : a.father_external_id = b.father_external_id)
    (h10 : a.mother_external_id = b.mother_external_id) : a = b := by
  cases a
  cases b
  simp_all

/-! ### Per-field decomposition of the enrichment fold -/

theorem enrichFold_field {α : Type} (k : Int) (proj : MNode → α) (step : α → Record → α)
    (hstep : ∀ n r, proj (enrichNode k (hidExtOf r) n r) = step (proj n) r) :
    ∀ (L : List Record) (n : MNode), proj (enrichFold k n L) = L.foldl step (proj n) := by
  intro L
  induction L with
  | nil => intro n; rfl
  | cons r L ih =>
    intro n
    have h1 : enrichFold k n (r :: L) = enrichFold k (enrichNode k (hidExtOf r) n r) L := rfl
    rw [h1, ih, hstep, List.foldl_cons]

theorem enrichFold_horse (k : Int) (L : List Record) (n : MNode) :
    (enrichFold k n L).horse_id = L.foldl (hidStep k) n.horse_id :=
  enrichFold_field k MNode.horse_id (hidStep k) (fun n r => enrich_horse k (hidExtOf r) n r) L n

theorem enrichFold_father (k : Int) (L : List Record) (n : MNode) :
    (enrichFold k n L).father_id = (L.map pdataF).foldl pstep n.father_id := by
  rw [List.foldl_map]
  exact enrichFold_field k MNode.father_id (fun c r => pstep c (pdataF r))
    (fun n r => enrich_father k (hidExtOf r) n r) L n

theorem enrichFold_mother (k : Int) (L : List Record) (n : MNode) :
    (enrichFold k n L).mother_id = (L.map pdataM).foldl pstep n.mother_id := by
  rw [List.foldl_map]
  exact enrichFold_field k MNode.mother_id (fun c r => pstep c (pdataM r))
    (fun n r => enrich_mother k (hidExtOf r) n r) L n

theorem enrichFold_sex (k : Int) (L : List Record) (n : MNode) :
    (enrichFold k n L).sex = (L.map Record.sex).foldl fillStep n.sex := by
  rw [List.foldl_map]
  exact enrichFold_field k MNode.sex (fun c r => fillStep c r.sex)
    (fun n r => enrich_sex k (hidExtOf r) n r) L n

theorem enrichFold_birth_year (k : Int) (L : List Record) (n : MNode) :
    (enrichFold k n L).birth_year = (L.map Record.birth_year).foldl fillStep n.birth_year := by
  rw [List.foldl_map]
  exact enrichFold_field k MNode.birth_year (fun c r => fillStep c r.birth_year)
    (fun n r => enrich_birth_year k (hidExtOf r) n r) L n

theorem enrichFold_name (k : Int) (L : List Record) (n : MNode) :
    (enrichFold k n L).name = (L.map Record.name).foldl fillStep n.name := by
  rw [List.foldl_map]
  exact enrichFold_field k MNode.name (fun c r => fillStep c r.name)
    (fun n r => enrich_name k (hidExtOf r) n r) L n

theorem enrichFold_regnum (k : Int) (L : List Record) (n : MNode) :
    (enrichFold k n L).registration_number
      = (L.map Record.registration_number).foldl fillStep n.registration_number := by
  rw [List.foldl_map]
  exact enrichFold_field k MNode.registration_number
    (fun c r => fillStep c r.registration_number)
    (fun n r => enrich_regnum k (hidExtOf r) n r) L n

theorem enrichFold_external (k : Int) (L : List Record) (n : MNode) :
    (enrichFold k n L).external_id = (L.map hidExtOf).foldl extStep n.external_id := by
  rw [List.foldl_map]
  exact enrichFold_field k MNode.external_id (fun c r => extStep c (hidExtOf r))
    (fun n r => enrich_external k (hidExtOf r) n r) L n

theorem enrichFold_father_external (k : Int) (L : List Record) (n : MNode) :
    (enrichFold k n L).father_external_id
      = (L.map (fun r => (canonId r.father_id).2)).foldl extStep n.father_external_id := by
  rw [List.foldl_map]
  exact enrichFold_field k MNode.father_external_id
    (fun c r => extStep c (canonId r.father_id).2)
    (fun n r => enrich_father_external k (hidExtOf r) n r) L n

theorem enrichFold_mother_external (k : Int) (L : List Record) (n : MNode) :
    (enrichFold k n L).mother_external_id
      = (L.map (fun r => (canonId r.mother_id).2)).foldl extStep n.mother_external_id := by
  rw [List.foldl_map]
  exact enrichFold_field k MNode.mother_external_id
    (fun c r => extStep c (canonId r.mother_id).2)
    (fun n r => enrich_mother_external k (hidExtOf r) n r) L n

/-! ### Replaying a record list over its own merge result -/

theorem enrichFold_refold (k : Int) (r0 : Record) (rest : List Record) :
    enrichFold k
      (enrichNode k (hidExtOf r0) (enrichFold k (insertNode k (hidExtOf r0) r0) rest) r0)
      rest
      = enrichFold k (insertNode k (hidExtOf r0) r0) rest := by
  apply mnode_eq_of_fields
  · rw [enrichFold_horse, enrich_horse, enrichFold_horse]
    simp only [insertNode]
    rw [hidFold_eq k rest k rfl, hidStep_eq]
    exact hidFold_eq k rest k rfl
  · rw [enrichFold_father, enrich_father, enrichFold_father, insert_father]
    exact pfold_idem (pdataF r0 :: rest.map pdataF) none
  · rw [enrichFold_mother, enrich_mother, enrichFold_mother, insert_mother]
    exact pfold_idem (pdataM r0 :: rest.map pdataM) none
  · rw [enrichFold_sex, enrich_sex, enrichFold_sex]
    simp only [insertNode]
    exact ffold_seed (rest.map Record.sex) r0.sex
  · rw [enrichFold_birth_year, enrich_birth_year, enrichFold_birth_year]
    simp only [insertNode]
    exact ffold_seed (rest.map Record.birth_year) r0.birth_year
  · rw [enrichFold_name, enrich_name, enrichFold_name]
    simp only [insertNode]
    exact ffold_seed (rest.map Record.name) r0.name
  · rw [enrichFold_regnum, enrich_regnum, enrichFold_regnum]
    simp only [insertNode]
    exact ffold_seed (rest.map Record.registration_number) r0.registration_number
  · rw [enrichFold_external, enrich_external, enrichFold_external]
    simp only [insertNode]
    exact efold_seed (rest.map hidExtOf) (hidExtOf r0)
  · rw [enrichFold_father_external, enrich_father_external, enrichFold_father_external]
    simp only [insertNode]
    exact efold_seed (rest.map (fun r => (canonId r.father_id).2)) (canonId r0.father_id).2
  · rw [enrichFold_mother_external, enrich_mother_external, enrichFold_mother_external]
    simp only [insertNode]
    exact efold_seed (rest.map (fun r => (canonId r.mother_id).2)) (canonId r0.mother_id).2

/-! ### Per-key localization of the merge fold -/

theorem stepAt_of_match (k : Int) (r : Record) (h : matchesKey k r = true) (s : Option MNode) :
    stepAt k s r = some (match s with
      | none => insertNode k (hidExtOf r) r
      | some n => enrichNode k (hidExtOf r) n r) := by
  simp only [matchesKey, decide_eq_true_eq] at h
  have hp : canonId (nodeIdSource r) = (some k, hidExtOf r) := by
    have h2 : (canonId (nodeIdSource r)).2 = hidExtOf r := rfl
    exact Prod.ext h h2
  unfold stepAt
  rw [hp]
  simp

theorem stepAt_skip (k : Int) (r : Record) (h : matchesKey k r = false) (s : Option MNode) :
    stepAt k s r = s := by
  simp only [matchesKey, decide_eq_false_iff_not] at h
  unfold stepAt
  generalize hg : canonId (nodeIdSource r) = p at h ⊢
  obtain ⟨pf, pe⟩ := p
  cases pf with
  | none => rfl
  | some hid =>
    have hk : hid ≠ k := by
      intro hk2
      exact h (by simp [hk2])
    simp [hk]

theorem foldl_stepAt_filter (k : Int) (L : List Record) (s : Option MNode) :
    L.foldl (stepAt k) s = (L.filter (matchesKey k)).foldl (stepAt k) s := by
  induction L generalizing s with
  | nil => rfl
  | cons r L ih =>
    cases hm : matchesKey k r with
    | true =>
      rw [List.foldl_cons, List.filter_cons_of_pos hm, List.foldl_cons]
      exact ih (stepAt k s r)
    | false =>
      rw [List.foldl_cons, stepAt_skip k r hm s, List.filter_cons_of_neg (by simp [hm])]
      exact ih s

theorem stepAt_fold_enrich (k : Int) (L : List Record)
    (h : ∀ r ∈ L, matchesKey k r = true) (n : MNode) :
    L.foldl (stepAt k) (some n) = some (enrichFold k n L) := by
  induction L generalizing n with
  | nil => rfl
  | cons r L ih =>
    rw [List.foldl_cons, stepAt_of_match k r (h r (List.mem_cons_self r L)) (some n)]
    exact ih (fun r2 hr2 => h r2 (List.mem_cons_of_mem r hr2)) (enrichNode k (hidExtOf r) n r)

theorem stepAt_fold_insert (k : Int) (r0 : Record) (rest : List Record)
    (h0 : matchesKey k r0 = true) (hrest : ∀ r ∈ rest, matchesKey k r = true) :
    (r0 :: rest).foldl (stepAt k) none
      = some (enrichFold k (insertNode k (hidExtOf r0) r0) rest) := by
  rw [List.foldl_cons, stepAt_of_match k r0 h0 none]
  exact stepAt_fold_enrich k rest hrest _

theorem stepAt_fold_idem (k : Int) (L : List Record)
    (h : ∀ r ∈ L, matchesKey k r = true) :
    L.foldl (stepAt k) (L.foldl (stepAt k) none) = L.foldl (stepAt k) none := by
  cases L with
  | nil => rfl
  | cons r0 rest =>
    have h0 := h r0 (List.mem_cons_self r0 rest)
    have hrest : ∀ r ∈ rest, matchesKey k r = true :=
      fun r hr => h r (List.mem_cons_of_mem r0 hr)
    rw [stepAt_fold_insert k r0 rest h0 hrest]
    rw [List.foldl_cons, stepAt_of_match k r0 h0]
    rw [stepAt_fold_enrich k rest hrest]
    rw [enrichFold_refold]

theorem mergeRecord_apply (g : MGraph) (r : Record) (k : Int) :
    mergeRecord g r k = stepAt k (g k) r := by
  unfold mergeRecord stepAt
  generalize hg : canonId (nodeIdSource r) = p
  obtain ⟨pf, pe⟩ := p
  cases pf with
  | none => rfl
  | some hid =>
    by_cases hk : hid = k
    · subst hk
      cases hgk : g hid with
      | none => simp [updateG, hgk]
      | some n => simp [updateG, hgk]
    · have hk2 : ¬k = hid := fun h2 => hk h2.symm
      cases hgk : g hid with
      | none => simp [updateG, hgk, hk, hk2]
      | some n => simp [updateG, hgk, hk, hk2]

theorem mergeAll_apply (rs : List Record) (g : MGraph) (k : Int) :
    mergeAll g rs k = rs.foldl (stepAt k) (g k) := by
  induction rs generalizing g with
  | nil => rfl
  | cons r rs ih =>
    have h1 : mergeAll g (r :: rs) = mergeAll (mergeRecord g r) rs := rfl
    rw [h1, ih, mergeRecord_apply, List.foldl_cons]

theorem buildMerged_flatten (peds : List (List Record)) (g : MGraph) :
    peds.foldl (fun g2 ped => ped.foldl mergeRecord g2) g = mergeAll g peds.flatten := by
  induction peds generalizing g with
  | nil => rfl
  | cons ped peds ih =>
    rw [List.foldl_cons, ih]
    unfold mergeAll
    rw [List.flatten_cons, List.foldl_append]

/-- C2: merging the same fragment sequence twice produces a graph identical
to merging it once — the merge fold over the concatenation of a fragment
sequence with itself equals the merge fold over the sequence alone. -/
theorem merge_twice_eq_merge_once (frags : List (List Record)) :
    buildMergedPedigreeGraph (frags ++ frags) = buildMergedPedigreeGraph frags := by
  funext k
  unfold buildMergedPedigreeGraph
  rw [buildMerged_flatten, buildMerged_flatten, mergeAll_apply, mergeAll_apply]
  rw [List.flatten_append, List.foldl_append]
  show frags.flatten.foldl (stepAt k) (frags.flatten.foldl (stepAt k) none)
      = frags.flatten.foldl (stepAt k) none
  rw [foldl_stepAt_filter k frags.flatten none,
      foldl_stepAt_filter k frags.flatten]
  exact stepAt_fold_idem k (frags.flatten.filter (matchesKey k))
    (fun r hr => (List.mem_filter.mp hr).2)

/-! ### C3: curated override wins regardless of order -/

theorem mergeTwo_father (r1 r2 : Record) (k : Int)
    (hm1 : matchesKey k r1 = true) (hm2 : matchesKey k r2 = true) :
    ((mergeAll emptyMGraph [r1, r2]) k).map MNode.father_id
      = some (pstep (pstep none (pdataF r1)) (pdataF r2)) := by
  have hfold : (mergeAll emptyMGraph [r1, r2]) k
      = some (enrichFold k (insertNode k (hidExtOf r1) r1) [r2]) := by
    rw [mergeAll_apply]
    refine stepAt_fold_insert k r1 [r2] hm1 ?_
    intro r hr
    simp only [List.mem_singleton] at hr
    subst hr
    exact hm2
  rw [hfold]
  have h2 : enrichFold k (insertNode k (hidExtOf r1) r1) [r2]
      = enrichNode k (hidExtOf r2) (insertNode k (hidExtOf r1) r1) r2 := rfl
  rw [h2]
  simp only [Option.map]
  rw [enrich_father, insert_father]

/-- C3: for two fragments describing the same individual, one carrying an
ordinary father reference (ID 500, with no Kaprell labels) and one carrying
the curated father reference -275, the merged node's father is the curated
ID whichever fragment is merged first; in particular a node whose only
known father is 500, later merged with a record giving father -275, ends
with father -275. -/
theorem curated_override_wins_any_order (r1 r2 : Record) (k : Int)
    (hm1 : matchesKey k r1 = true) (hm2 : matchesKey k r2 = true)
    (hf1 : (canonId r1.father_id).1 = some 500)
    (hf2 : (canonId r2.father_id).1 = some (-275))
    (hclean : looksLikeKaprellContext r1 = false) :
    ((mergeAll emptyMGraph [r1, r2]) k).map MNode.father_id = some (some (-275)) ∧
    ((mergeAll emptyMGraph [r2, r1]) k).map MNode.father_id = some (some (-275)) := by
  have hd1 : pdataF r1 = some (500, false) := by
    simp [pdataF, hf1, hclean, kaprellId, isCuratedNegativeId]
  have hd2 : pdataF r2 = some ((-275 : Int), true) := by
    simp [pdataF, hf2, kaprellId]
  constructor
  · rw [mergeTwo_father r1 r2 k hm1 hm2, hd1, hd2]
    decide
  · rw [mergeTwo_father r2 r1 k hm2 hm1, hd1, hd2]
    decide

/-! ### C5: monotonic enrichment -/

theorem knownPreserved_refl (a : MNode) : knownPreserved a a :=
  ⟨id, id, id, id, id, id, id, id, id⟩

theorem knownPreserved_trans {a b c : MNode}
    (h1 : knownPreserved a b) (h2 : knownPreserved b c) : knownPreserved a c := by
  obtain ⟨a1, a2, a3, a4, a5, a6, a7, a8, a9⟩ := h1
  obtain ⟨b1, b2, b3, b4, b5, b6, b7, b8, b9⟩ := h2
  exact ⟨fun h => b1 (a1 h), fun h => b2 (a2 h), fun h => b3 (a3 h),
         fun h => b4 (a4 h), fun h => b5 (a5 h), fun h => b6 (a6 h),
         fun h => b7 (a7 h), fun h => b8 (a8 h), fun h => b9 (a9 h)⟩

theorem isMissingOptInt_pstep (c : Option Int) (h : isMissingOptInt c = false)
    (d : Option (Int × Bool)) : isMissingOptInt (pstep c d) = false := by
  cases c with
  | none => simp [isMissingOptInt] at h
  | some e =>
    obtain ⟨e2, he2⟩ := pstep_isSome (some e) e rfl d
    rw [he2]
    rfl

theorem isMissing_fillStep (c v : Val) (h : isMissing c = false) :
    isMissing (fillStep c v) = false := by
  have : fillStep c v = c := by simp [fillStep, h]
  rw [this]
  exact h

theorem isMissingOptStr_extStep (c t : Option String) (h : isMissingOptStr c = false) :
    isMissingOptStr (extStep c t) = false := by
  cases t with
  | none => exact h
  | some s => rw [extStep_known c s h]; exact h

theorem enrich_knownPreserved (k : Int) (e : Option String) (n : MNode) (r : Record) :
    knownPreserved n (enrichNode k e n r) := by
  refine ⟨?_, ?_, ?_, ?_, ?_, ?_, ?_, ?_, ?_⟩
  · intro h
    rw [enrich_father]
    exact isMissingOptInt_pstep n.father_id h (pdataF r)
  · intro h
    rw [enrich_mother]
    exact isMissingOptInt_pstep n.mother_id h (pdataM r)
  · intro h
    rw [enrich_sex]
    exact isMissing_fillStep n.sex r.sex h
  · intro h
    rw [enrich_birth_year]
    exact isMissing_fillStep n.birth_year r.birth_year h
  · intro h
    rw [enrich_name]
    exact isMissing_fillStep n.name r.name h
  · intro h
    rw [enrich_regnum]
    exact isMissing_fillStep n.registration_number r.registration_number h
  · intro h
    rw [enrich_external]
    exact isMissingOptStr_extStep n.external_id e h
  · intro h
    rw [enrich_father_external]
    exact isMissingOptStr_extStep n.father_external_id (canonId r.father_id).2 h
  · intro h
    rw [enrich_mother_external]
    exact isMissingOptStr_extStep n.mother_external_id (canonId r.mother_id).2 h

theorem stepAt_some_preserves (k : Int) (n : MNode) (r : Record) :
    ∃ n2, stepAt k (some n) r = some n2 ∧ knownPreserved n n2 := by
  cases hm : matchesKey k r with
  | true =>
    rw [stepAt_of_match k r hm]
    exact ⟨enrichNode k (hidExtOf r) n r, rfl, enrich_knownPreserved k (hidExtOf r) n r⟩
  | false =>
    rw [stepAt_skip k r hm]
    exact ⟨n, rfl, knownPreserved_refl n⟩

theorem foldl_stepAt_preserves (k : Int) (B : List Record) (n : MNode) :
    ∃ n2, B.foldl (stepAt k) (some n) = some n2 ∧ knownPreserved n n2 := by
  induction B generalizing n with
  | nil => exact ⟨n, rfl, knownPreserved_refl n⟩
  | cons r B ih =>
    obtain ⟨n1, h1, p1⟩ := stepAt_some_preserves k n r
    obtain ⟨n2, h2, p2⟩ := ih n1
    refine ⟨n2, ?_, knownPreserved_trans p1 p2⟩
    rw [List.foldl_cons, h1]
    exact h2

/-- C5: monotonic enrichment — every node field that is known (not
missing) after merging the fragment sequence `A` is still known on that
node after additionally merging any further fragment `B`. -/
theorem merge_monotonic_enrichment (A : List (List Record)) (B : List Record)
    (k : Int) (n1 : MNode) (h1 : buildMergedPedigreeGraph A k = some n1) :
    ∃ n2, mergeAll (buildMergedPedigreeGraph A) B k = some n2 ∧ knownPreserved n1 n2 := by
  obtain ⟨n2, h2, p⟩ := foldl_stepAt_preserves k B n1
  refine ⟨n2, ?_, p⟩
  rw [mergeAll_apply, h1]
  exact h2

/-! ### C1: appearance count on the scoring scenario -/

/-- C1: on the scenario graph, `ancestor_influence_scores` with root 1,
max depth 2 and focus `{9}` returns an entry for ancestor 9 whose
appearance count is 2 — 9 is counted once per path through the two
grandparent lines. -/
theorem scoring_scenario_count_is_two :
    ((ancestorInfluenceScores scoringScenarioGraph 1 2 false (3/4) 1 (some [9])).find?
        (fun p => p.1 = 9)).map (fun p => p.2.count) = some 2 := by
  decide

/-- Witness for C3 at concrete records: node 7 with ordinary father 500 in
one record and curated father -275 in the other. -/
theorem curated_override_wins_any_order_witness :
    (matchesKey 7 recOrdinary500 = true ∧ matchesKey 7 recCurated275 = true ∧
     (canonId recOrdinary500.father_id).1 = some 500 ∧
     (canonId recCurated275.father_id).1 = some (-275) ∧
     looksLikeKaprellContext recOrdinary500 = false) ∧
    (((mergeAll emptyMGraph [recOrdinary500, recCurated275]) 7).map MNode.father_id
        = some (some (-275)) ∧
     ((mergeAll emptyMGraph [recCurated275, recOrdinary500]) 7).map MNode.father_id
        = some (some (-275))) :=
  ⟨⟨by decide, by decide, by decide, by decide, by decide⟩,
   curated_override_wins_any_order recOrdinary500 recCurated275 7
     (by decide) (by decide) (by decide) (by decide) (by decide)⟩

/-- Witness for C5 at a concrete fragment pair. -/
theorem merge_monotonic_enrichment_witness :
    buildMergedPedigreeGraph [[recOrdinary500]] 7 = some (insertNode 7 none recOrdinary500) ∧
    ∃ n2, mergeAll (buildMergedPedigreeGraph [[recOrdinary500]]) [recCurated275] 7 = some n2 ∧
      knownPreserved (insertNode 7 none recOrdinary500) n2 :=
  ⟨by decide,
   merge_monotonic_enrichment [[recOrdinary500]] [recCurated275] 7
     (insertNode 7 none recOrdinary500) (by decide)⟩

/-! ### C4: synthetic canonicalization of unknown tokens -/

/-- C4 (amended): every non-empty, non-digit, non-curated token
canonicalizes to `syntheticId` of its stripped form — a negative integer
of magnitude at most 2 000 000 000 — with the stripped token retained as
external id.  The magnitude is *not* guaranteed to exceed the curated
band; see the counterexample. -/
theorem unknown_token_canonicalization (s : String)
    (h1 : pyStrip s ≠ "") (h2 : pyIsDigitStr (pyStrip s) = false)
    (h3 : pyUpperStr (pyStrip s) ≠ kaprellRegno) :
    canonId (.vStr s) = (some (syntheticId (pyStrip s)), some (pyStrip s)) ∧
    -2000000000 ≤ syntheticId (pyStrip s) ∧ syntheticId (pyStrip s) < 0 := by
  refine ⟨?_, ?_, ?_⟩
  · simp [canonId, canonStr, h1, h2, h3]
  · unfold syntheticId
    have hm : md5Trunc64 (pyStrip (pyStrip s)) % 2000000000 < 2000000000 :=
      Nat.mod_lt _ (by norm_num)
    simp only [Int.ofNat_eq_coe]
    omega
  · unfold syntheticId
    simp only [Int.ofNat_eq_coe]
    omega

set_option maxRecDepth 100000 in
/-- Counterexample to C4 as stated: the token `X5531` canonicalizes to the
synthetic id -167392, whose magnitude lies *inside* the reserved curated
band (`_is_curated_negative_id` accepts it). -/
theorem synthetic_id_inside_curated_band :
    canonId (.vStr ("X5531")) = (some (-167392), some ("X5531")) ∧
    isCuratedNegativeId (-167392) = true := by
  constructor
  · decide
  · decide

/-- Witness for the amended C4 at the token `abc`. -/
theorem unknown_token_canonicalization_witness :
    (pyStrip ("abc") ≠ "" ∧ pyIsDigitStr (pyStrip ("abc")) = false ∧
     pyUpperStr (pyStrip ("abc")) ≠ kaprellRegno) ∧
    (canonId (.vStr ("abc")) = (some (syntheticId (pyStrip ("abc"))), some (pyStrip ("abc"))) ∧
     -2000000000 ≤ syntheticId (pyStrip ("abc")) ∧ syntheticId (pyStrip ("abc")) < 0) :=
  ⟨⟨by decide, by decide, by decide⟩,
   unknown_token_canonicalization ("abc") (by decide) (by decide) (by decide)⟩

/-! ### C9: dash-glyph convergence -/

set_option maxRecDepth 100000 in
/-- Counterexample to C9 as stated: `_canon_id` sends `"T-275"` to the
curated id -275 but `"T – 275"` (en dash) to the synthetic id -106874058;
the two spellings do not converge under canonicalization alone. -/
theorem dash_glyphs_do_not_converge :
    (canonId (.vStr ("T-275"))).1 = some (-275) ∧
    (canonId (.vStr ("T – 275"))).1 = some (-106874058) ∧
    (canonId (.vStr ("T-275"))).1 ≠ (canonId (.vStr ("T – 275"))).1 := by
  refine ⟨by decide, by decide, by decide⟩

set_option maxRecDepth 100000 in
/-- C9 (amended): `"T-275"` canonicalizes to the curated -275 while
`"T – 275"` canonicalizes to the distinct synthetic id -106874058; the two
spellings converge only after the parser's registration-number dash
normalization (`_normalize_regno_text`), which rewrites `"T – 275"` to
`"T-275"`. -/
theorem dash_glyph_convergence_needs_parser_normalization :
    canonId (.vStr ("T-275")) = (some (-275), some ("T-275")) ∧
    canonId (.vStr ("T – 275")) = (some (-106874058), some ("T – 275")) ∧
    normalizeRegnoText ("T – 275") = "T-275" ∧
    canonId (.vStr (normalizeRegnoText ("T – 275"))) = (some (-275), some ("T-275")) := by
  refine ⟨by decide, by decide, by decide, by decide⟩

/-! ### C7: merge failure semantics -/

theorem mergeRecListJ_ok_iff (rs : List JVal) :
    ∀ g, exceptOk (mergeRecListJ g rs) = rs.all isJDict := by
  induction rs with
  | nil => intro g; rfl
  | cons r rs ih =>
    intro g
    cases r with
    | jdict d => simp [mergeRecListJ, mergeRecordJ, isJDict, ih]
    | jnull => simp [mergeRecListJ, mergeRecordJ, isJDict, exceptOk]
    | jint n => simp [mergeRecListJ, mergeRecordJ, isJDict, exceptOk]
    | jstr s => simp [mergeRecListJ, mergeRecordJ, isJDict, exceptOk]
    | jlist l => simp [mergeRecListJ, mergeRecordJ, isJDict, exceptOk]

theorem mergePedigreesJ_ok_iff (peds : List (List JVal)) :
    ∀ g, exceptOk (mergePedigreesJ g peds) = allRecordsDicts peds := by
  induction peds with
  | nil => intro g; rfl
  | cons ped peds ih =>
    intro g
    cases hp : mergeRecListJ g ped with
    | ok g2 =>
      have hall : ped.all isJDict = true := by
        have := mergeRecListJ_ok_iff ped g
        rw [hp] at this
        exact this.symm
      simp [mergePedigreesJ, hp, allRecordsDicts, hall, ih g2]
    | error e =>
      have hall : ped.all isJDict = false := by
        have := mergeRecListJ_ok_iff ped g
        rw [hp] at this
        exact this.symm
      simp [mergePedigreesJ, hp, allRecordsDicts, hall, exceptOk]

/-- C7 (amended): the loader skips malformed files whole (a file that
failed to parse contributes nothing); a record-shaped (dict) record whose
identifier does not canonicalize is skipped individually, leaving the
graph unchanged; but the merge completes without an exception exactly when
every record of every loaded fragment is record-shaped — a non-dict record
inside a list fragment raises out of the merge. -/
theorem merge_failure_semantics (files : List (Option JVal)) (g : JGraph) (d : JDict)
    (h : (canonJ (nodeIdSourceJ d)).1 = none) :
    exceptOk (buildMergedFromFiles files) = allRecordsDicts (loadAllCachedPedigrees files) ∧
    mergeDictRecordJ g d = g ∧
    loadAllCachedPedigrees (files ++ [none]) = loadAllCachedPedigrees files := by
  refine ⟨mergePedigreesJ_ok_iff (loadAllCachedPedigrees files) [], ?_, ?_⟩
  · have hp : canonJ (nodeIdSourceJ d) = (none, (canonJ (nodeIdSourceJ d)).2) :=
      Prod.ext h rfl
    unfold mergeDictRecordJ
    rw [hp]
  · unfold loadAllCachedPedigrees
    rw [List.foldl_append]
    rfl

/-- Counterexample to C7 as stated: a well-formed list fragment containing
the non-dict record `1` makes the merge fail (the `AttributeError` raised
by `node.get` on an int propagates, modelled as an error result) — it is
not skipped individually. -/
theorem malformed_record_raises :
    exceptOk (buildMergedFromFiles [some (.jlist [.jint 1])]) = false := by decide

/-- Witness for the amended C7. -/
theorem merge_failure_semantics_witness :
    ((canonJ (nodeIdSourceJ [])).1 = none) ∧
    (exceptOk (buildMergedFromFiles [some (.jlist [.jint 1])])
        = allRecordsDicts (loadAllCachedPedigrees [some (.jlist [.jint 1])]) ∧
     mergeDictRecordJ [] [] = [] ∧
     loadAllCachedPedigrees ([some (.jlist [.jint 1])] ++ [none])
        = loadAllCachedPedigrees [some (.jlist [.jint 1])]) :=
  ⟨by decide, merge_failure_semantics [some (.jlist [.jint 1])] [] [] (by decide)⟩

/-! ### C8: missing-root safety -/

theorem hasKey_false_find (g : PyGraph) (k : Int) (h : hasKey g k = false) :
    graphFind g k = none := by
  simp only [hasKey, List.any_eq_false] at h
  have h2 : g.find? (fun p => p.1 = k) = none := List.find?_eq_none.mpr h
  simp [graphFind, h2]

theorem projWalk_absent (g : PyGraph) (maxd : Nat) (hid : Int)
    (h : graphFind g hid = none) :
    ∀ fuel st d, projWalk g maxd fuel st hid d = st := by
  intro fuel st d
  cases fuel with
  | zero => rfl
  | succ f =>
    cases hv : st.visited.contains hid with
    | true =>
      simp only [projWalk, hv]
      rfl
    | false =>
      simp only [projWalk, hv, h]
      rfl

/-- C8: a `root_id` absent from the graph yields an empty scorer mapping,
an empty projection with empty frontier, an all-zero generation summary
with no generation counts, and two empty appearance mappings — all four
entry points return their empty structure from the missing-root guard. -/
theorem missing_root_safety (g : PyGraph) (root : Int) (maxd : Nat) (maxdU : Option Nat)
    (alpha : ℚ) (p : Nat) (focus : Option (List Int)) (inclRoot : Bool)
    (h : hasKey g root = false) :
    ancestorInfluenceScores g root maxd inclRoot alpha p focus = [] ∧
    projectAncestry g root maxd = ([], []) ∧
    mergedGenerationSummary g root maxdU = (⟨0, 0, 0, 0⟩, []) ∧
    mergedGenerationAppearanceSummary g root maxd = ([], []) := by
  refine ⟨?_, ?_, ?_, ?_⟩
  · simp [ancestorInfluenceScores, h]
  · unfold projectAncestry
    rw [projWalk_absent g maxd root (hasKey_false_find g root h)]
  · simp [mergedGenerationSummary, h]
  · simp [mergedGenerationAppearanceSummary, h]

/-- Witness for C8 on a one-node graph with an absent root. -/
theorem missing_root_safety_witness :
    hasKey [((1 : Int), ([] : PyNode))] 2 = false ∧
    (ancestorInfluenceScores [((1 : Int), ([] : PyNode))] 2 3 false (3/4) 1 none = [] ∧
     projectAncestry [((1 : Int), ([] : PyNode))] 2 3 = ([], []) ∧
     mergedGenerationSummary [((1 : Int), ([] : PyNode))] 2 none = (⟨0, 0, 0, 0⟩, []) ∧
     mergedGenerationAppearanceSummary [((1 : Int), ([] : PyNode))] 2 3 = ([], [])) :=
  ⟨by decide,
   missing_root_safety [((1 : Int), ([] : PyNode))] 2 3 none (3/4) 1 none false (by decide)⟩

/-! ### Projection: reachability invariant of the walk -/

theorem reachWithin_trans {g : PyGraph} {a b c : Int} {i j : Nat}
    (h1 : ReachWithin g a b i) (h2 : ReachWithin g b c j) : ReachWithin g a c (i + j) := by
  induction h2 with
  | refl => exact h1
  | step x y d hr ht hy ih => exact ReachWithin.step x y (i + d) ih ht hy

theorem graphGetD_of_find (g : PyGraph) (k : Int) (node : PyNode)
    (hfind : graphFind g k = some node) (hnode : node ≠ []) : graphGetD g k = node := by
  simp [graphGetD, hfind, hnode]

theorem mem_parentKeysIn_father (g : PyGraph) (k : Int) (node : PyNode) (fv : Int)
    (hget : graphGetD g k = node) (hf : pyGet node ("father_id") = .vInt fv)
    (hk : hasKey g fv = true) : fv ∈ parentKeysIn g k := by
  simp only [parentKeysIn, hget, hf, hk]
  simp

theorem mem_parentKeysIn_mother (g : PyGraph) (k : Int) (node : PyNode) (mv : Int)
    (hget : graphGetD g k = node) (hm : pyGet node ("mother_id") = .vInt mv)
    (hk : hasKey g mv = true) : mv ∈ parentKeysIn g k := by
  simp only [parentKeysIn, hget, hm, hk]
  simp

theorem projWalk_projected_spec (g : PyGraph) (maxd : Nat) :
    ∀ (fuel : Nat) (st : ProjState) (hid : Int) (d : Nat), d ≤ maxd →
      ∀ e, e ∈ (projWalk g maxd fuel st hid d).projected →
        e ∈ st.projected ∨
        (graphFind g e.1 = some e.2 ∧ e.2 ≠ [] ∧
         ∃ j, d + j ≤ maxd ∧ ReachWithin g hid e.1 j) := by
  intro fuel
  induction fuel with
  | zero =>
    intro st hid d _ e he
    exact Or.inl he
  | succ f ih =>
    intro st hid d hd e he
    cases hv : st.visited.contains hid with
    | true =>
      have hw : projWalk g maxd (f + 1) st hid d = st := by
        simp only [projWalk, hv]
        rfl
      rw [hw] at he
      exact Or.inl he
    | false =>
      cases hfind : graphFind g hid with
      | none =>
        have hw : projWalk g maxd (f + 1) st hid d = st := by
          simp only [projWalk, hv, hfind]
          rfl
        rw [hw] at he
        exact Or.inl he
      | some node =>
        by_cases hnode : node = []
        · subst hnode
          have hw : projWalk g maxd (f + 1) st hid d = st := by
            simp only [projWalk, hv, hfind]
            rfl
          rw [hw] at he
          exact Or.inl he
        · have htru : truthyNode g hid = true := by
            simp [truthyNode, hfind, hnode]
          have hgetd : graphGetD g hid = node := graphGetD_of_find g hid node hfind hnode
          have base : e ∈ st.projected ++ [(hid, node)] →
              e ∈ st.projected ∨
              (graphFind g e.1 = some e.2 ∧ e.2 ≠ [] ∧
               ∃ j, d + j ≤ maxd ∧ ReachWithin g hid e.1 j) := by
            intro hb
            rcases List.mem_append.mp hb with h1 | h1
            · exact Or.inl h1
            · have h2 : e = (hid, node) := by simpa using h1
              subst h2
              exact Or.inr ⟨hfind, hnode, 0, by omega, ReachWithin.refl⟩
          by_cases hcut : d ≥ maxd
          · have hw : projWalk g maxd (f + 1) st hid d =
                (if ((match pyGet node ("father_id") with
                      | .vInt fv => hasKey g fv
                      | _ => false) ||
                     (match pyGet node ("mother_id") with
                      | .vInt mv => hasKey g mv
                      | _ => false)) = true
                 then ⟨st.projected ++ [(hid, node)], st.has_more ++ [hid], st.visited ++ [hid]⟩
                 else ⟨st.projected ++ [(hid, node)], st.has_more, st.visited ++ [hid]⟩) := by
              simp only [projWalk, hv, hfind, if_neg hnode, if_pos hcut]
              rfl
            rw [hw] at he
            split at he
            · exact base he
            · exact base he
          · have hlt : d + 1 ≤ maxd := by omega
            have key : ∀ (pm : Int) (stx : ProjState), pm ∈ parentKeysIn g hid →
                e ∈ (projWalk g maxd f stx pm (d + 1)).projected →
                e ∈ stx.projected ∨
                (graphFind g e.1 = some e.2 ∧ e.2 ≠ [] ∧
                 ∃ j, d + j ≤ maxd ∧ ReachWithin g hid e.1 j) := by
              intro pm stx hpm hmem2
              rcases ih stx pm (d + 1) hlt e hmem2 with h1 | ⟨ha, hb, j, hj, hr⟩
              · exact Or.inl h1
              · refine Or.inr ⟨ha, hb, j + 1, by omega, ?_⟩
                have h01 : ReachWithin g hid pm 1 :=
                  ReachWithin.step hid pm 0 ReachWithin.refl htru hpm
                have h2 := reachWithin_trans h01 hr
                rw [Nat.add_comm] at h2
                exact h2
            obtain ⟨stf, hPf, hwM⟩ :
                ∃ stf : ProjState,
                  (e ∈ stf.projected →
                    e ∈ st.projected ∨
                    (graphFind g e.1 = some e.2 ∧ e.2 ≠ [] ∧
                     ∃ j, d + j ≤ maxd ∧ ReachWithin g hid e.1 j)) ∧
                  projWalk g maxd (f + 1) st hid d =
                    (match pyGet node ("mother_id") with
                     | .vInt mv =>
                       if hasKey g mv = true then projWalk g maxd f stf mv (d + 1) else stf
                     | _ => stf) := by
              cases hfv : pyGet node ("father_id") with
              | vInt fv =>
                cases hkf : hasKey g fv with
                | true =>
                  refine ⟨projWalk g maxd f
                      ⟨st.projected ++ [(hid, node)], st.has_more, st.visited ++ [hid]⟩
                      fv (d + 1), ?_, ?_⟩
                  · intro hm
                    rcases key fv _ (mem_parentKeysIn_father g hid node fv hgetd hfv hkf)
                        hm with h1 | h1
                    · exact base h1
                    · exact Or.inr h1
                  · simp only [projWalk, hv, hfind, if_neg hnode, if_neg hcut, hfv, hkf]
                    rfl
                | false =>
                  refine ⟨⟨st.projected ++ [(hid, node)], st.has_more, st.visited ++ [hid]⟩,
                      base, ?_⟩
                  simp only [projWalk, hv, hfind, if_neg hnode, if_neg hcut, hfv, hkf]
                  rfl
              | vNone =>
                refine ⟨⟨st.projected ++ [(hid, node)], st.has_more, st.visited ++ [hid]⟩,
                    base, ?_⟩
                simp only [projWalk, hv, hfind, if_neg hnode, if_neg hcut, hfv]
                rfl
              | vStr s =>
                refine ⟨⟨st.projected ++ [(hid, node)], st.has_more, st.visited ++ [hid]⟩,
                    base, ?_⟩
                simp only [projWalk, hv, hfind, if_neg hnode, if_neg hcut, hfv]
                rfl
            cases hmv : pyGet node ("mother_id") with
            | vInt mv =>
              rw [hmv] at hwM
              dsimp only at hwM
              cases hkm : hasKey g mv with
              | true =>
                rw [hkm] at hwM
                simp only [reduceIte] at hwM
                rw [hwM] at he
                rcases key mv stf (mem_parentKeysIn_mother g hid node mv hgetd hmv hkm)
                    he with h1 | h1
                · exact hPf h1
                · exact Or.inr h1
              | false =>
                rw [hkm, if_neg Bool.false_ne_true] at hwM
                rw [hwM] at he
                exact hPf he
            | vNone =>
              rw [hmv] at hwM
              dsimp only at hwM
              rw [hwM] at he
              exact hPf he
            | vStr s =>
              rw [hmv] at hwM
              dsimp only at hwM
              rw [hwM] at he
              exact hPf he

/-! ### C6: projection order-(in)dependence -/

/-- Counterexample to C6 as stated: on `projScenarioGraph` with
`max_depth = 3`, the key set and the frontier set computed by the
depth-first `project_ancestry` differ from those of the minimal-distance
breadth-first expansion: the walk first reaches node 5 at depth 3 along
the father line, cuts there, and never projects node 6, while the
breadth-first expansion reaches 5 at its minimal depth 1 and includes 6. -/
theorem projection_dfs_differs_from_bfs :
    (listSetEq ((projectAncestry projScenarioGraph 1 3).1.map Prod.fst)
        (specBfsProject projScenarioGraph 1 3).1 &&
     listSetEq ((projectAncestry projScenarioGraph 1 3).2)
        (specBfsProject projScenarioGraph 1 3).2) = false := by decide

/-- C6 (amended): every node key in the projected subgraph is reachable
from the root along a chain of in-graph parent edges of length at most
`max_depth`; the depth-first visitation order can however drop nodes that
the minimal-generation breadth-first expansion includes (and flag a
different frontier), so the result sets need not coincide. -/
theorem projection_keys_reachable_within_depth (g : PyGraph) (root : Int) (maxd : Nat)
    (x : Int) (nodex : PyNode)
    (hmem : (x, nodex) ∈ (projectAncestry g root maxd).1) :
    ∃ j, j ≤ maxd ∧ ReachWithin g root x j := by
  unfold projectAncestry at hmem
  rcases projWalk_projected_spec g maxd (g.length + 2) ⟨[], [], []⟩ root 0 (Nat.zero_le _)
      (x, nodex) hmem with h1 | ⟨_, _, j, hj, hr⟩
  · exact absurd h1 (by simp)
  · exact ⟨j, by omega, hr⟩

/-- Witness for the amended C6: node 2 is projected and reachable. -/
theorem projection_keys_reachable_within_depth_witness :
    ((2 : Int), [(("father_id" : String), Val.vInt 3)]) ∈ (projectAncestry projScenarioGraph 1 3).1 ∧
    ∃ j, j ≤ 3 ∧ ReachWithin projScenarioGraph 1 2 j :=
  ⟨by decide,
   projection_keys_reachable_within_depth projScenarioGraph 1 3 2
     [(("father_id" : String), Val.vInt 3)] (by decide)⟩

/-! ### C10: falsy node values in the projector -/

theorem projWalk_falsy (g : PyGraph) (maxd : Nat) (hid : Int)
    (h : graphFind g hid = some []) :
    ∀ fuel st d, projWalk g maxd fuel st hid d = st := by
  intro fuel st d
  cases fuel with
  | zero => rfl
  | succ f =>
    cases hv : st.visited.contains hid with
    | true =>
      simp only [projWalk, hv]
      rfl
    | false =>
      simp only [projWalk, hv, h]
      rfl

/-- C10: a root key bound to an empty (falsy) node yields an empty
projected subgraph and an empty frontier — the projector treats it like an
absent key — and a key bound to an empty node is never included in any
projected subgraph of the same graph, whatever root and depth are used. -/
theorem falsy_root_projection (g : PyGraph) (root : Int) (maxd : Nat)
    (h : graphFind g root = some []) :
    projectAncestry g root maxd = ([], []) ∧
    ∀ (root2 : Int) (maxd2 : Nat) (x : Int) (nodex : PyNode),
      graphFind g x = some [] → (x, nodex) ∉ (projectAncestry g root2 maxd2).1 := by
  constructor
  · unfold projectAncestry
    rw [projWalk_falsy g maxd root h]
  · intro root2 maxd2 x nodex hx hmem
    unfold projectAncestry at hmem
    rcases projWalk_projected_spec g maxd2 (g.length + 2) ⟨[], [], []⟩ root2 0 (Nat.zero_le _)
        (x, nodex) hmem with h1 | ⟨hf, hne, _⟩
    · exact absurd h1 (by simp)
    · rw [hx] at hf
      exact hne (Option.some.inj hf).symm

/-- Witness for C10 on a one-node graph whose only node is empty. -/
theorem falsy_root_projection_witness :
    graphFind [((1 : Int), ([] : PyNode))] 1 = some [] ∧
    (projectAncestry [((1 : Int), ([] : PyNode))] 1 5 = ([], []) ∧
     ∀ (root2 : Int) (maxd2 : Nat) (x : Int) (nodex : PyNode),
       graphFind [((1 : Int), ([] : PyNode))] x = some [] →
       (x, nodex) ∉ (projectAncestry [((1 : Int), ([] : PyNode))] root2 maxd2).1) :=
  ⟨by decide, falsy_root_projection [((1 : Int), ([] : PyNode))] 1 5 (by decide)⟩
